import Mathlib

/-!
Verification of the Responsys content tool (src/app.py): a shallow embedding
of its reshaping and validation pipeline, together with proofs about the
frozen claims.  Text cells are lists of characters; a pandas NaN cell is
modelled as `none`.  Dataframes are lists of association-list rows.
-/

namespace Responsys

/-- Text is modelled as a list of characters. -/
abbrev Str := List Char

/-- A table cell: `none` models a missing value (pandas NaN). -/
abbrev Cell := Option Str

/-- Whitespace as recognised by Python's str.strip and the regex class \s on
str: the full set of code points where str.isspace() holds — ASCII whitespace,
the C1 separators, NO-BREAK SPACE, OGHAM SPACE MARK, the U+2000..U+200A
spaces, LINE and PARAGRAPH SEPARATOR, NARROW NO-BREAK SPACE, MEDIUM
MATHEMATICAL SPACE and IDEOGRAPHIC SPACE. -/
def isPySpace (c : Char) : Bool :=
  c == ' ' || c == '\t' || c == '\n' || c == '\r' || c == '\x0b' || c == '\x0c' ||
  c == '\x1c' || c == '\x1d' || c == '\x1e' || c == '\x1f' || c == '\x85' || c == '\xa0' ||
  c == '\u1680' || c == '\u2000' || c == '\u2001' || c == '\u2002' ||
  c == '\u2003' || c == '\u2004' || c == '\u2005' || c == '\u2006' ||
  c == '\u2007' || c == '\u2008' || c == '\u2009' || c == '\u200a' ||
  c == '\u2028' || c == '\u2029' || c == '\u202f' || c == '\u205f' ||
  c == '\u3000'

/-- Removal of trailing whitespace, the right half of Python's str.strip. -/
def pyRStrip : Str → Str
  | [] => []
  | c :: rest =>
    let r := pyRStrip rest
    if r.isEmpty && isPySpace c then [] else c :: r

/-- Python's str.strip: drop leading and trailing whitespace. -/
def pyStrip (t : Str) : Str := pyRStrip (t.dropWhile isPySpace)

/-- Python's str.replace for a single-character pattern `bad`,
replaced everywhere by the string `good`. -/
def replaceChar (bad : Char) (good : Str) (t : Str) : Str :=
  t.flatMap (fun c => if c == bad then good else [c])

/-- The typography replacements of validate_and_clean_rpl, applied in the
source's dictionary order: curly double quotes to straight double quotes,
curly single quotes to straight single quotes, ellipsis to three periods,
en-dash and em-dash to hyphen. -/
def applyReplacements (t : Str) : Str :=
  replaceChar '—' ['-'] (replaceChar '–' ['-'] (replaceChar '…' ['.', '.', '.']
    (replaceChar '‘' ['\''] (replaceChar '’' ['\''] (replaceChar '”' ['"']
      (replaceChar '“' ['"'] t))))))

/-- text.count of the two-character marker: the number of positions where
an open marker starts.  (Python counts non-overlapping occurrences; for this
two-character pattern, whose second character differs from its first,
occurrences cannot overlap, so the two counts coincide.) -/
def countOpen : Str → Nat
  | [] => 0
  | c :: rest => (if c == '$' && rest.head? == some '{' then 1 else 0) + countOpen rest

/-- text.count of the single close-brace character. -/
def countClose (t : Str) : Nat := t.count '}'

/-- Does the text begin with an open marker followed by whitespace?
(The head of a match of the Python regex for whitespace inside an open tag.) -/
def startsOpenWs : Str → Bool
  | a :: b :: c :: _ => a == '$' && b == '{' && isPySpace c
  | _ => false

/-- re.search for whitespace immediately after an open marker. -/
def hasOpenWs : Str → Bool
  | [] => false
  | c :: rest => startsOpenWs (c :: rest) || hasOpenWs rest

/-- Does the text begin with whitespace followed by a close brace?
(The head of a match of the Python regex for whitespace before a close brace.) -/
def startsWsClose : Str → Bool
  | a :: b :: _ => isPySpace a && b == '}'
  | _ => false

/-- re.search for whitespace immediately before a close brace. -/
def hasWsClose : Str → Bool
  | [] => false
  | c :: rest => startsWsClose (c :: rest) || hasWsClose rest

/-- The CRITICAL message for mismatched braces, with both counts. -/
def criticalMsg (o c : Nat) : String :=
  "CRITICAL: Mismatched braces. Found " ++ toString o ++ " '$\x7b' but " ++
    toString c ++ " '\x7d'."

/-- The WARNING message for whitespace inside a tag. -/
def warningMsg : String := "WARNING: Spaces detected inside RPL tag."

/-- Typography cleanup: strip, then the replacement table. -/
def cleanText (t : Str) : Str := applyReplacements (pyStrip t)

/-- validate_and_clean_rpl from src/app.py: absent or empty input passes
through; otherwise the text is stripped and typography-cleaned, then the
brace counts are compared (CRITICAL on mismatch) and the whitespace-in-tag
regexes are tried (WARNING).  The cleaned text is returned in every case. -/
def validate_and_clean_rpl (cell : Cell) : Str × Option String :=
  match cell with
  | none => ([], none)
  | some t =>
    if t = [] then ([], none)
    else
      let t2 := cleanText t
      if countOpen t2 ≠ countClose t2 then
        (t2, some (criticalMsg (countOpen t2) (countClose t2)))
      else if hasOpenWs t2 || hasWsClose t2 then (t2, some warningMsg)
      else (t2, none)

/-! ## The tabular model

A row is an association list from column names to cells; a dataframe keeps
its column names (in order) next to its rows.  `findCol` is the first-match
lookup; `getCell` identifies a missing entry with a NaN cell, which is how
every read in src/app.py treats the two. -/

/-- One dataframe row: column name to cell, first entry wins. -/
abbrev RowT := List (String × Cell)

/-- First-match lookup of a column entry in a row. -/
def findCol (k : String) : RowT → Option Cell
  | [] => none
  | p :: r => if p.1 = k then some p.2 else findCol k r

/-- The value of a row at a column; a missing entry reads as NaN. -/
def getCell (r : RowT) (k : String) : Cell := (findCol k r).join

/-- Write a cell: replace the entry when the column is present, append it
otherwise (pandas column assignment). -/
def setCell (r : RowT) (k : String) (v : Cell) : RowT :=
  if r.any (fun p => p.1 == k) then
    r.map (fun p => if p.1 == k then (k, v) else p)
  else r ++ [(k, v)]

/-- A dataframe: ordered column names and rows. -/
structure DF where
  cols : List String
  rows : List RowT
deriving DecidableEq

/-- df.melt(id_vars, value_vars, var_name, value_name): the long row made
from source row `r` and language column `v`. -/
def mkLong (idVars : List String) (v : String) (r : RowT) : RowT :=
  idVars.map (fun m => (m, getCell r m)) ++
    [("SITE_LANGUAGE", some v.data), ("Content", getCell r v)]

/-- df.melt: one long row per (language column, source row), stacked one
language column at a time as pandas does. -/
def melt (df : DF) (idVars valueVars : List String) : List RowT :=
  valueVars.flatMap (fun v => df.rows.map (fun r => mkLong idVars v r))

/-- dropna(subset=['Content']) followed by the filter against the empty
string: only long rows with non-empty present content survive. -/
def prune (l : List RowT) : List RowT :=
  (l.filter (fun r => (getCell r "Content").isSome)).filter
    (fun r => decide (getCell r "Content" ≠ some []))

/-- df[lang] = df[lang].fillna(df['EN']): fill the NaN cells of one language
column from the row-aligned EN cell.  (pandas fillna touches only NaN cells;
an empty-string cell is not NaN and is left alone.) -/
def fillnaFromEN (df : DF) (lang : String) : DF :=
  { df with rows := df.rows.map (fun r =>
      if (getCell r lang).isNone then setCell r lang (getCell r "EN") else r) }

/-- The fallback loop of generate_csv_logic: every language column other
than EN is filled from EN. -/
def applyFallback (df : DF) (langCols : List String) : DF :=
  langCols.foldl (fun d lang => if lang ≠ "EN" then fillnaFromEN d lang else d) df

/-- The dataframe generate_csv_logic works on after its optional fallback
step (the input object itself, mutated in place when the step runs). -/
def csvFallbackDF (df : DF) (langCols : List String) (useEnglishFallback : Bool) : DF :=
  if useEnglishFallback && "EN" ∈ df.cols then applyFallback df langCols else df

/-- A content validation error of the CSV path: language, field, message and
the content the source code stores with it (the value read from the row
before the cleaned text is written back). -/
structure CsvErr where
  lang : Cell
  field : Cell
  error : String
  content : Cell
deriving DecidableEq

/-- The validation pass of generate_csv_logic: every long row's content is
replaced by its cleaned text, and one error record is collected per failing
row, in row order. -/
def csvValidate (l : List RowT) : List RowT × List CsvErr :=
  (l.map (fun r => setCell r "Content" (some (validate_and_clean_rpl (getCell r "Content")).1)),
   l.filterMap (fun r => (validate_and_clean_rpl (getCell r "Content")).2.map (fun m =>
     { lang := getCell r "SITE_LANGUAGE", field := getCell r "DB_Field_Name",
       error := m, content := getCell r "Content" })))

/-- The full error list of a generate_csv_logic run. -/
def csvErrList (df : DF) (existingMeta langCols : List String) (useEnglishFallback : Bool) :
    List CsvErr :=
  (csvValidate (prune (melt (csvFallbackDF df langCols useEnglishFallback)
    existingMeta langCols))).2

/-- The pivot index of generate_csv_logic: language, priority and module,
then each optional business key that the source table has. -/
def pivotIndex (cols : List String) : List String :=
  ["SITE_LANGUAGE", "Priority", "Module_Type"] ++
    (if "SITE_BRAND" ∈ cols then ["SITE_BRAND"] else []) ++
    (if "CAMPAIGN_NAME" ∈ cols then ["CAMPAIGN_NAME"] else []) ++
    (if "SITE_COUNTRY" ∈ cols then ["SITE_COUNTRY"] else [])

/-- Deduplication keeping the first occurrence (pandas drop_duplicates and
the first-seen grouping order of pivot keys). -/
def dedupFirst {α : Type} [DecidableEq α] : List α → List α
  | [] => []
  | a :: l => a :: (dedupFirst l).filter (fun b => decide (b ≠ a))

/-- The key tuple of a long row under the given pivot index. -/
def rowKey (ks : List String) (r : RowT) : List Cell := ks.map (getCell r)

/-- melted.pivot_table(index, columns='DB_Field_Name', values='Content',
aggfunc='first').reset_index(): rows with a NaN grouping key are dropped
(pandas groupby), one output row per distinct key tuple, one column per
distinct field value, holding the first matching content.  (pandas sorts the
group keys; encounter order is used here instead — no claim concerns the
order of the pivoted rows or columns.) -/
def pivotTable (l : List RowT) (ks : List String) : DF :=
  let l2 := l.filter (fun r =>
    (rowKey ks r).all Option.isSome && (getCell r "DB_Field_Name").isSome)
  let keys := dedupFirst (l2.map (rowKey ks))
  let fields := dedupFirst (l2.filterMap (fun r => getCell r "DB_Field_Name"))
  { cols := ks ++ fields.map String.mk
    rows := keys.map (fun g =>
      ks.zip g ++ fields.map (fun f =>
        (String.mk f,
          match l2.find? (fun r =>
            decide (rowKey ks r = g) && decide (getCell r "DB_Field_Name" = some f)) with
          | some r => getCell r "Content"
          | none => none))) }

/-- final_df[name] = value for a column absent from the pivoted result. -/
def addDefault (df : DF) (name : String) (v : Str) : DF :=
  if name ∈ df.cols then df
  else { cols := df.cols ++ [name], rows := df.rows.map (fun r => r ++ [(name, some v)]) }

/-- final_df.rename(columns={'Priority': 'PRIORITY', 'Module_Type': 'MODULE'}). -/
def renameForTarget (df : DF) : DF :=
  let ren := fun c => if c = "Priority" then "PRIORITY"
    else if c = "Module_Type" then "MODULE" else c
  { cols := df.cols.map ren, rows := df.rows.map (fun r => r.map (fun p => (ren p.1, p.2))) }

/-- generate_csv_logic from src/app.py.  The first component is the state of
the caller's dataframe when the function returns (the fallback step assigns
into it); the second is the emitted CSV, represented by the final wide table
whose serialization it is; the third is the error table.  Exactly one of the
last two is present. -/
def generate_csv_logic (df : DF) (existingMeta langCols : List String)
    (defaultCampaign : Str) (useEnglishFallback : Bool) :
    DF × Option DF × Option (List CsvErr) :=
  let df2 := csvFallbackDF df langCols useEnglishFallback
  let melted := prune (melt df2 existingMeta langCols)
  let step := csvValidate melted
  if step.2 ≠ [] then (df2, none, some step.2)
  else
    let finalDf := pivotTable step.1 (pivotIndex df2.cols)
    let finalDf := addDefault finalDf "CAMPAIGN_NAME" defaultCampaign
    let finalDf := addDefault finalDf "SITE_BRAND" "ALL".data
    let finalDf := addDefault finalDf "SITE_COUNTRY" "ALL".data
    (df2, some (renameForTarget finalDf), none)

/-! ## The JSON path -/

/-- A content validation error of the JSON path: the row index, the language
column, the message and the content the source code stores with it (the cell
value as read, before cleaning).  No field name is recorded. -/
structure JsonErr where
  row : Nat
  lang : String
  error : String
  content : Cell
deriving DecidableEq

/-- Python str() of a cell, as used for record values: a string passes
through, NaN prints as "nan". -/
def pyStr (c : Cell) : Str :=
  match c with
  | some s => s
  | none => "nan".data

/-- The error records one column's cleaning pass collects: one per failing
cell, carrying the row index, the column and the cell value as read. -/
def jsonColErrors (rows : List RowT) (col : String) : List JsonErr :=
  rows.enum.filterMap (fun p =>
    (validate_and_clean_rpl (getCell p.2 col)).2.map (fun m =>
      { row := p.1, lang := col, error := m, content := getCell p.2 col }))

/-- The in-place mutation one column's cleaning pass performs: every cell of
the column is replaced by its cleaned text. -/
def jsonCleanCol (d : DF) (col : String) : DF :=
  { d with rows := d.rows.map (fun r =>
      setCell r col (some (validate_and_clean_rpl (getCell r col)).1)) }

/-- One iteration of the cleaning loop: mutate the column in place and
append its errors. -/
def jsonCleanStep (st : DF × List JsonErr) (col : String) : DF × List JsonErr :=
  (jsonCleanCol st.1 col, st.2 ++ jsonColErrors st.1.rows col)

/-- The in-place cleaning loop of generate_json_logic: column by column,
every cell is replaced by its cleaned text, and one error record per failing
cell is appended, in column-major order.  Returns the mutated dataframe and
the error list. -/
def jsonCleanDF (df : DF) (langCols : List String) : DF × List JsonErr :=
  langCols.foldl jsonCleanStep (df, [])

/-- melted[name] = value when the column is absent from the melted frame
(whose columns are the id_vars plus SITE_LANGUAGE and Content). -/
def addLongDefault (l : List RowT) (meltedCols : List String) (name : String) (v : Str) :
    List RowT :=
  if name ∈ meltedCols then l else l.map (fun r => r ++ [(name, some v)])

/-- The pruned, default-filled long data of a generate_json_logic run. -/
def jsonLongData (df : DF) (existingMeta langCols : List String) (defaultCampaign : Str) :
    List RowT :=
  let meltedCols := existingMeta ++ ["SITE_LANGUAGE", "Content"]
  addLongDefault
    (addLongDefault (prune (melt (jsonCleanDF df langCols).1 existingMeta langCols))
      meltedCols "CAMPAIGN_NAME" defaultCampaign)
    meltedCols "SITE_BRAND" "ALL".data

/-- The four-column projection a unique key is drawn from. -/
def keyQuad (r : RowT) : Cell × Cell × Cell × Cell :=
  (getCell r "CAMPAIGN_NAME", getCell r "Priority",
   getCell r "SITE_LANGUAGE", getCell r "SITE_BRAND")

/-- pandas elementwise equality, as == computes it inside the filter: two
present values compare by value, and NaN compares unequal to everything,
itself included. -/
def pdEq (a b : Cell) : Bool :=
  match a, b with
  | some x, some y => decide (x = y)
  | _, _ => false

/-- The subset of the long data gathered for a key: the filter matches on
campaign, priority and language only — the source never compares brand. -/
def subsetFor (melted : List RowT) (camp prio lang : Cell) : List RowT :=
  melted.filter (fun r =>
    pdEq (getCell r "CAMPAIGN_NAME") camp &&
    pdEq (getCell r "Priority") prio &&
    pdEq (getCell r "SITE_LANGUAGE") lang)

/-- The four fixed match fields that start every shape. -/
def baseFields : List Cell :=
  [some "CAMPAIGN_NAME".data, some "PRIORITY".data,
   some "SITE_LANGUAGE".data, some "SITE_BRAND".data]

/-- active_fields for a key: the fixed four, then each gathered record's
field name in encounter order. -/
def buildShape (subset : List RowT) : List Cell :=
  baseFields ++ subset.map (fun r => getCell r "DB_Field_Name")

/-- record_values for a key: the stringified key values, then each gathered
record's content. -/
def buildValues (camp prio lang brand : Cell) (subset : List RowT) : List Str :=
  [pyStr camp, pyStr prio, pyStr lang, pyStr brand] ++
    subset.map (fun r => pyStr (getCell r "Content"))

/-- The grouping dictionary: insertion-ordered shape-to-records buckets
(a Python dict preserves insertion order). -/
abbrev GroupDict := List (List Cell × List (List Str))

/-- grouped_payloads[shape].append(record_values), creating the bucket when
the shape is new. -/
def dictAppend (d : GroupDict) (shape : List Cell) (rec : List Str) : GroupDict :=
  if d.any (fun p => decide (p.1 = shape)) then
    d.map (fun p => if decide (p.1 = shape) then (p.1, p.2 ++ [rec]) else p)
  else d ++ [(shape, [rec])]

/-- One iteration of the key loop: gather the subset for the key (by its
first three components), skip the key when the subset is empty, otherwise
build the shape and value tuple and file them in the dictionary. -/
def processKey (melted : List RowT) (d : GroupDict) (key : Cell × Cell × Cell × Cell) :
    GroupDict :=
  let (camp, prio, lang, brand) := key
  let subset := subsetFor melted camp prio lang
  if subset = [] then d
  else dictAppend d (buildShape subset) (buildValues camp prio lang brand subset)

/-- The fixed mergeRule block of every payload. -/
structure MergeRule where
  matchColumnName1 : String
  matchColumnName2 : String
  matchColumnName3 : String
  matchColumnName4 : String
  optinValue : String
  rejectRecordIfChannelEmpty : String
  defaultPermissionStatus : String
deriving DecidableEq

/-- The constant mergeRule of the target API contract. -/
def theMergeRule : MergeRule :=
  { matchColumnName1 := "CAMPAIGN_NAME", matchColumnName2 := "PRIORITY",
    matchColumnName3 := "SITE_LANGUAGE", matchColumnName4 := "SITE_BRAND",
    optinValue := "I", rejectRecordIfChannelEmpty := "I",
    defaultPermissionStatus := "OPTIN" }

/-- recordData of a payload: the ordered field names and the value tuples. -/
structure RecordData where
  fieldNames : List Cell
  records : List (List Str)
deriving DecidableEq

/-- One JSON payload. -/
structure Payload where
  recordData : RecordData
  mergeRule : MergeRule
deriving DecidableEq

/-- The grouping dictionary a successful generate_json_logic run builds: the
key loop over the distinct key tuples of the long data, in encounter order. -/
def jsonGrouped (df : DF) (existingMeta langCols : List String)
    (defaultCampaign : Str) : GroupDict :=
  let melted := jsonLongData df existingMeta langCols defaultCampaign
  (dedupFirst (melted.map keyQuad)).foldl (processKey melted) []

/-- generate_json_logic from src/app.py.  The first component is the state
of the caller's dataframe when the function returns (the cleaning loop
assigns into it); the second is the payload list; the third the error
table.  Exactly one of the last two is present. -/
def generate_json_logic (df : DF) (existingMeta langCols : List String)
    (defaultCampaign : Str) : DF × Option (List Payload) × Option (List JsonErr) :=
  let cleaned := jsonCleanDF df langCols
  if cleaned.2 ≠ [] then (cleaned.1, none, some cleaned.2)
  else
    (cleaned.1,
     some ((jsonGrouped df existingMeta langCols defaultCampaign).map (fun p =>
       { recordData := { fieldNames := p.1, records := p.2 }, mergeRule := theMergeRule })),
     none)

/-! ## Lemmas: brace counts and whitespace patterns are not disturbed by
typography cleanup

The replacement table touches neither `$`, braces nor whitespace, and strip
only removes whitespace at the ends, so the brace counts of a text and the
presence of whitespace next to a marker inside it are read off the raw cell
exactly as off the cleaned text. -/

theorem isPySpace_not_special {c : Char} (h : isPySpace c = true) :
    c ≠ '$' ∧ c ≠ '{' ∧ c ≠ '}' := by
  refine ⟨?_, ?_, ?_⟩ <;> rintro rfl <;> exact absurd h (by decide)

@[simp] theorem countOpen_nil : countOpen [] = 0 := rfl

theorem countOpen_cons (c : Char) (rest : Str) :
    countOpen (c :: rest) =
      (if c == '$' && rest.head? == some '{' then 1 else 0) + countOpen rest := rfl

theorem countOpen_append_no_dollar {a : Str} (h : '$' ∉ a) (b : Str) :
    countOpen (a ++ b) = countOpen b := by
  induction a with
  | nil => simp
  | cons d a ih =>
    have hd : (d == '$') = false := by
      simp only [beq_eq_false_iff_ne, ne_eq]
      rintro rfl; exact h (List.mem_cons_self _ _)
    simp only [List.cons_append, countOpen_cons, hd, Bool.false_and]
    rw [if_neg (by simp), Nat.zero_add]
    exact ih (fun hm => h (List.mem_cons_of_mem _ hm))

theorem countOpen_dropWhile (l : Str) :
    countOpen (l.dropWhile isPySpace) = countOpen l := by
  induction l with
  | nil => simp
  | cons c rest ih =>
    rw [List.dropWhile_cons]
    by_cases hc : isPySpace c = true
    · have h1 : (c == '$') = false := by
        simp only [beq_eq_false_iff_ne, ne_eq]; exact (isPySpace_not_special hc).1
      simp [hc, ih, countOpen_cons, h1]
    · simp [hc]

theorem pyRStrip_all_space {l : Str} (h : pyRStrip l = []) :
    ∀ c ∈ l, isPySpace c = true := by
  induction l with
  | nil => intro c hc; cases hc
  | cons c rest ih =>
    intro d hd
    rw [pyRStrip] at h
    by_cases hcond : ((pyRStrip rest).isEmpty && isPySpace c) = true
    · rcases Bool.and_eq_true_iff.mp hcond with ⟨he, hs⟩
      rcases List.mem_cons.mp hd with rfl | hdm
      · exact hs
      · exact ih (List.isEmpty_iff.mp he) d hdm
    · simp only [hcond, if_false] at h
      cases h

theorem countOpen_eq_zero_of_all_space {l : Str} (h : ∀ c ∈ l, isPySpace c = true) :
    countOpen l = 0 := by
  induction l with
  | nil => rfl
  | cons c rest ih =>
    have h1 : (c == '$') = false := by
      simp only [beq_eq_false_iff_ne, ne_eq]
      exact (isPySpace_not_special (h c (List.mem_cons_self _ _))).1
    simp [countOpen_cons, h1, ih (fun d hd => h d (List.mem_cons_of_mem _ hd))]

theorem pyRStrip_shape (c : Char) (rest : Str) :
    pyRStrip (c :: rest) = [] ∨ pyRStrip (c :: rest) = c :: pyRStrip rest := by
  rw [pyRStrip]
  by_cases hcond : ((pyRStrip rest).isEmpty && isPySpace c) = true
  · left; simp [hcond]
  · right; simp [hcond]

theorem countOpen_pyRStrip (l : Str) : countOpen (pyRStrip l) = countOpen l := by
  induction l with
  | nil => rfl
  | cons c rest ih =>
    rw [pyRStrip]
    by_cases hcond : ((pyRStrip rest).isEmpty && isPySpace c) = true
    · rcases Bool.and_eq_true_iff.mp hcond with ⟨he, hs⟩
      have hall : ∀ d ∈ c :: rest, isPySpace d = true := by
        intro d hd
        rcases List.mem_cons.mp hd with rfl | hdm
        · exact hs
        · exact pyRStrip_all_space (List.isEmpty_iff.mp he) d hdm
      simp [hcond, countOpen_eq_zero_of_all_space hall]
    · rw [if_neg hcond]
      rw [countOpen_cons, countOpen_cons, ih]
      cases rest with
      | nil => rfl
      | cons d r2 =>
        rcases pyRStrip_shape d r2 with hsh | hsh
        · have hall := pyRStrip_all_space hsh
          have hz : countOpen (d :: r2) = 0 := countOpen_eq_zero_of_all_space hall
          have hd1 : (d == '{') = false := by
            simp only [beq_eq_false_iff_ne, ne_eq]
            exact (isPySpace_not_special (hall d (List.mem_cons_self _ _))).2.1
          rw [hsh]
          simp [hz, hd1, countOpen_eq_zero_of_all_space
            (fun e he => hall e (List.mem_cons_of_mem _ he))]
        · rw [hsh]; simp

theorem countOpen_pyStrip (l : Str) : countOpen (pyStrip l) = countOpen l := by
  rw [pyStrip, countOpen_pyRStrip, countOpen_dropWhile]

@[simp] theorem countClose_nil : countClose [] = 0 := rfl

theorem countClose_cons (c : Char) (rest : Str) :
    countClose (c :: rest) = countClose rest + (if c == '}' then 1 else 0) :=
  List.count_cons ..

theorem countClose_eq_zero_of_all_space {l : Str} (h : ∀ c ∈ l, isPySpace c = true) :
    countClose l = 0 := by
  induction l with
  | nil => rfl
  | cons c rest ih =>
    have h1 : (c == '}') = false := by
      simp only [beq_eq_false_iff_ne, ne_eq]
      exact (isPySpace_not_special (h c (List.mem_cons_self _ _))).2.2
    simp [countClose_cons, h1, ih (fun d hd => h d (List.mem_cons_of_mem _ hd))]

theorem countClose_dropWhile (l : Str) :
    countClose (l.dropWhile isPySpace) = countClose l := by
  induction l with
  | nil => simp
  | cons c rest ih =>
    rw [List.dropWhile_cons]
    by_cases hc : isPySpace c = true
    · have h1 : (c == '}') = false := by
        simp only [beq_eq_false_iff_ne, ne_eq]; exact (isPySpace_not_special hc).2.2
      simp [hc, ih, countClose_cons, h1]
    · simp [hc]

theorem countClose_pyRStrip (l : Str) : countClose (pyRStrip l) = countClose l := by
  induction l with
  | nil => rfl
  | cons c rest ih =>
    rw [pyRStrip]
    by_cases hcond : ((pyRStrip rest).isEmpty && isPySpace c) = true
    · rcases Bool.and_eq_true_iff.mp hcond with ⟨he, hs⟩
      have hall : ∀ d ∈ c :: rest, isPySpace d = true := by
        intro d hd
        rcases List.mem_cons.mp hd with rfl | hdm
        · exact hs
        · exact pyRStrip_all_space (List.isEmpty_iff.mp he) d hdm
      simp [hcond, countClose_eq_zero_of_all_space hall]
    · rw [if_neg hcond]
      rw [countClose_cons, countClose_cons, ih]

theorem countClose_pyStrip (l : Str) : countClose (pyStrip l) = countClose l := by
  rw [pyStrip, countClose_pyRStrip, countClose_dropWhile]

@[simp] theorem replaceChar_nil (bad : Char) (good : Str) :
    replaceChar bad good [] = [] := rfl

theorem replaceChar_cons (bad : Char) (good : Str) (c : Char) (t : Str) :
    replaceChar bad good (c :: t) =
      (if c == bad then good else [c]) ++ replaceChar bad good t := by
  simp [replaceChar]

theorem replaceChar_head_brace {bad : Char} {good : Str}
    (hbr : bad ≠ '{') (hne : good ≠ [])
    (hgood : ∀ x ∈ good, x ≠ '{') (l : Str) :
    ((replaceChar bad good l).head? == some '{') = (l.head? == some '{') := by
  cases l with
  | nil => rfl
  | cons d r =>
    rw [replaceChar_cons]
    by_cases hdb : (d == bad) = true
    · obtain ⟨g0, g', rfl⟩ : ∃ g0 g', good = g0 :: g' := by
        cases good with
        | nil => exact absurd rfl hne
        | cons g0 g' => exact ⟨g0, g', rfl⟩
      have hg0 : g0 ≠ '{' := hgood g0 (List.mem_cons_self _ _)
      have hdid : d ≠ '{' := by rw [(beq_iff_eq ..).mp hdb]; exact hbr
      rw [if_pos hdb]
      simp [hg0, hdid]
    · rw [if_neg hdb]
      rfl

theorem countOpen_replaceChar {bad : Char} {good : Str}
    (hd : bad ≠ '$') (hbr : bad ≠ '{') (hne : good ≠ [])
    (hgood : ∀ x ∈ good, x ≠ '$' ∧ x ≠ '{') (l : Str) :
    countOpen (replaceChar bad good l) = countOpen l := by
  induction l with
  | nil => rfl
  | cons c rest ih =>
    rw [replaceChar_cons]
    by_cases hc : (c == bad) = true
    · rw [if_pos hc, countOpen_append_no_dollar (fun hm => (hgood _ hm).1 rfl), ih,
        countOpen_cons]
      have h1 : (c == '$') = false := by
        simp only [beq_eq_false_iff_ne, ne_eq]
        rw [(beq_iff_eq ..).mp hc]; exact hd
      simp [h1]
    · rw [if_neg hc, List.singleton_append, countOpen_cons, countOpen_cons, ih,
        replaceChar_head_brace hbr hne (fun x hx => (hgood x hx).2) rest]

theorem countClose_replaceChar {bad : Char} {good : Str}
    (hcl : bad ≠ '}') (hgood : ∀ x ∈ good, x ≠ '}') (l : Str) :
    countClose (replaceChar bad good l) = countClose l := by
  induction l with
  | nil => rfl
  | cons c rest ih =>
    rw [replaceChar_cons]
    show List.count '}' _ = _
    rw [List.count_append]
    by_cases hc : (c == bad) = true
    · rw [if_pos hc]
      have hz : List.count '}' good = 0 := by
        rw [List.count_eq_zero]
        intro hm; exact hgood '}' hm rfl
      have h1 : (c == '}') = false := by
        simp only [beq_eq_false_iff_ne, ne_eq]
        rw [(beq_iff_eq ..).mp hc]; exact hcl
      rw [hz, countClose_cons]
      show 0 + countClose _ = _
      rw [Nat.zero_add, ih, h1]
      simp
    · rw [if_neg hc]
      show List.count '}' [c] + countClose _ = _
      rw [ih, countClose_cons, List.count_singleton', Nat.add_comm]
      simp

/-- Brace counts are unchanged by the whole typography cleanup. -/
theorem countOpen_cleanText (t : Str) : countOpen (cleanText t) = countOpen t := by
  rw [cleanText, applyReplacements]
  rw [countOpen_replaceChar (by decide) (by decide) (by decide) (by decide)]
  rw [countOpen_replaceChar (by decide) (by decide) (by decide) (by decide)]
  rw [countOpen_replaceChar (by decide) (by decide) (by decide) (by decide)]
  rw [countOpen_replaceChar (by decide) (by decide) (by decide) (by decide)]
  rw [countOpen_replaceChar (by decide) (by decide) (by decide) (by decide)]
  rw [countOpen_replaceChar (by decide) (by decide) (by decide) (by decide)]
  rw [countOpen_replaceChar (by decide) (by decide) (by decide) (by decide)]
  exact countOpen_pyStrip t

/-- The close-brace count is unchanged by the whole typography cleanup. -/
theorem countClose_cleanText (t : Str) : countClose (cleanText t) = countClose t := by
  rw [cleanText, applyReplacements]
  rw [countClose_replaceChar (by decide) (by decide)]
  rw [countClose_replaceChar (by decide) (by decide)]
  rw [countClose_replaceChar (by decide) (by decide)]
  rw [countClose_replaceChar (by decide) (by decide)]
  rw [countClose_replaceChar (by decide) (by decide)]
  rw [countClose_replaceChar (by decide) (by decide)]
  rw [countClose_replaceChar (by decide) (by decide)]
  exact countClose_pyStrip t

@[simp] theorem hasOpenWs_nil : hasOpenWs [] = false := rfl

theorem hasOpenWs_cons (c : Char) (rest : Str) :
    hasOpenWs (c :: rest) = (startsOpenWs (c :: rest) || hasOpenWs rest) := rfl

theorem startsOpenWs_iff (l : Str) :
    startsOpenWs l = true ↔ ∃ d rest, l = '$' :: '{' :: d :: rest ∧ isPySpace d = true := by
  cases l with
  | nil => simp [startsOpenWs]
  | cons a t1 =>
    cases t1 with
    | nil => simp [startsOpenWs]
    | cons b t2 =>
      cases t2 with
      | nil => simp [startsOpenWs]
      | cons c t3 =>
        constructor
        · intro h
          have h3 : ((a == '$') = true ∧ (b == '{') = true) ∧ isPySpace c = true := by
            simpa [startsOpenWs, Bool.and_eq_true] using h
          refine ⟨c, t3, ?_, h3.2⟩
          rw [(beq_iff_eq ..).mp h3.1.1, (beq_iff_eq ..).mp h3.1.2]
        · rintro ⟨d, rest, heq, hws⟩
          obtain ⟨ha, hb, hc, ht⟩ : a = '$' ∧ b = '{' ∧ c = d ∧ t3 = rest := by
            simpa [List.cons.injEq] using heq
          subst ha; subst hb; subst hc
          simp [startsOpenWs, hws]

@[simp] theorem hasWsClose_nil : hasWsClose [] = false := rfl

theorem hasWsClose_cons (c : Char) (rest : Str) :
    hasWsClose (c :: rest) = (startsWsClose (c :: rest) || hasWsClose rest) := rfl

theorem startsWsClose_iff (l : Str) :
    startsWsClose l = true ↔ ∃ w rest, l = w :: '}' :: rest ∧ isPySpace w = true := by
  cases l with
  | nil => simp [startsWsClose]
  | cons a t1 =>
    cases t1 with
    | nil => simp [startsWsClose]
    | cons b t2 =>
      constructor
      · intro h
        have h2 : isPySpace a = true ∧ (b == '}') = true := by
          simpa [startsWsClose, Bool.and_eq_true] using h
        exact ⟨a, t2, by rw [(beq_iff_eq ..).mp h2.2], h2.1⟩
      · rintro ⟨w, rest, heq, hws⟩
        obtain ⟨ha, hb, ht⟩ : a = w ∧ b = '}' ∧ t2 = rest := by
          simpa [List.cons.injEq] using heq
        subst ha; subst hb
        simp [startsWsClose, hws]

theorem startsOpenWs_append {t : Str} (h : startsOpenWs t = true) (s : Str) :
    startsOpenWs (t ++ s) = true := by
  obtain ⟨d, rest, rfl, hws⟩ := (startsOpenWs_iff t).mp h
  exact (startsOpenWs_iff _).mpr ⟨d, rest ++ s, by simp, hws⟩

theorem startsWsClose_append {t : Str} (h : startsWsClose t = true) (s : Str) :
    startsWsClose (t ++ s) = true := by
  obtain ⟨w, rest, rfl, hws⟩ := (startsWsClose_iff t).mp h
  exact (startsWsClose_iff _).mpr ⟨w, rest ++ s, by simp, hws⟩

theorem hasOpenWs_append_right {t : Str} (h : hasOpenWs t = true) (s : Str) :
    hasOpenWs (t ++ s) = true := by
  induction t with
  | nil => simp at h
  | cons c t1 ih =>
    rw [hasOpenWs_cons] at h
    rcases Bool.or_eq_true_iff.mp h with hst | hrec
    · rw [List.cons_append, hasOpenWs_cons, ← List.cons_append,
        startsOpenWs_append hst, Bool.true_or]
    · rw [List.cons_append, hasOpenWs_cons, ih hrec, Bool.or_true]

theorem hasWsClose_append_right {t : Str} (h : hasWsClose t = true) (s : Str) :
    hasWsClose (t ++ s) = true := by
  induction t with
  | nil => simp at h
  | cons c t1 ih =>
    rw [hasWsClose_cons] at h
    rcases Bool.or_eq_true_iff.mp h with hst | hrec
    · rw [List.cons_append, hasWsClose_cons, ← List.cons_append,
        startsWsClose_append hst, Bool.true_or]
    · rw [List.cons_append, hasWsClose_cons, ih hrec, Bool.or_true]

theorem hasOpenWs_dropWhile_imp {l : Str}
    (h : hasOpenWs (l.dropWhile isPySpace) = true) : hasOpenWs l = true := by
  induction l with
  | nil => simpa using h
  | cons c rest ih =>
    rw [List.dropWhile_cons] at h
    by_cases hc : isPySpace c = true
    · rw [if_pos hc] at h
      rw [hasOpenWs_cons, ih h, Bool.or_true]
    · rwa [if_neg hc] at h

theorem hasWsClose_dropWhile_imp {l : Str}
    (h : hasWsClose (l.dropWhile isPySpace) = true) : hasWsClose l = true := by
  induction l with
  | nil => simpa using h
  | cons c rest ih =>
    rw [List.dropWhile_cons] at h
    by_cases hc : isPySpace c = true
    · rw [if_pos hc] at h
      rw [hasWsClose_cons, ih h, Bool.or_true]
    · rwa [if_neg hc] at h

theorem pyRStrip_append_exists (l : Str) : ∃ s, pyRStrip l ++ s = l := by
  induction l with
  | nil => exact ⟨[], rfl⟩
  | cons c rest ih =>
    rw [pyRStrip]
    by_cases hcond : ((pyRStrip rest).isEmpty && isPySpace c) = true
    · rw [if_pos hcond]; exact ⟨c :: rest, rfl⟩
    · obtain ⟨s, hs⟩ := ih
      rw [if_neg hcond]
      exact ⟨s, by rw [List.cons_append, hs]⟩

theorem hasOpenWs_pyStrip_imp {l : Str}
    (h : hasOpenWs (pyStrip l) = true) : hasOpenWs l = true := by
  rw [pyStrip] at h
  obtain ⟨s, hs⟩ := pyRStrip_append_exists (l.dropWhile isPySpace)
  exact hasOpenWs_dropWhile_imp (hs ▸ hasOpenWs_append_right h s)

theorem hasWsClose_pyStrip_imp {l : Str}
    (h : hasWsClose (pyStrip l) = true) : hasWsClose l = true := by
  rw [pyStrip] at h
  obtain ⟨s, hs⟩ := pyRStrip_append_exists (l.dropWhile isPySpace)
  exact hasWsClose_dropWhile_imp (hs ▸ hasWsClose_append_right h s)


theorem hasOpenWs_append_no_dollar {a : Str} (h : ∀ x ∈ a, x ≠ '$') (b : Str) :
    hasOpenWs (a ++ b) = hasOpenWs b := by
  induction a with
  | nil => rfl
  | cons d a1 ih =>
    rw [List.cons_append, hasOpenWs_cons]
    have hst : startsOpenWs (d :: (a1 ++ b)) = false := by
      rw [← Bool.not_eq_true]
      intro hx
      obtain ⟨e, rest, heq, -⟩ := (startsOpenWs_iff _).mp hx
      have h2 : d = '$' ∧ a1 ++ b = '{' :: e :: rest := by
        simpa [List.cons.injEq] using heq
      exact h d (List.mem_cons_self _ _) h2.1
    rw [hst, Bool.false_or, ih (fun x hx => h x (List.mem_cons_of_mem _ hx))]

theorem hasWsClose_append_no_space {a : Str} (h : ∀ x ∈ a, ¬ isPySpace x = true)
    (b : Str) : hasWsClose (a ++ b) = hasWsClose b := by
  induction a with
  | nil => rfl
  | cons d a1 ih =>
    rw [List.cons_append, hasWsClose_cons]
    have hst : startsWsClose (d :: (a1 ++ b)) = false := by
      rw [← Bool.not_eq_true]
      intro hx
      obtain ⟨w, rest, heq, hws⟩ := (startsWsClose_iff _).mp hx
      have h2 : d = w ∧ a1 ++ b = '}' :: rest := by
        simpa [List.cons.injEq] using heq
      exact h d (List.mem_cons_self _ _) (h2.1 ▸ hws)
    rw [hst, Bool.false_or, ih (fun x hx => h x (List.mem_cons_of_mem _ hx))]

theorem hasOpenWs_replaceChar_imp {bad : Char} {good : Str}
    (hbr : bad ≠ '{') (hne : good ≠ [])
    (hgood : ∀ x ∈ good, x ≠ '$' ∧ x ≠ '{' ∧ isPySpace x = false) :
    ∀ l : Str, hasOpenWs (replaceChar bad good l) = true → hasOpenWs l = true := by
  intro l
  induction l with
  | nil => intro h; simpa using h
  | cons c rest ih =>
    intro h
    rw [replaceChar_cons] at h
    by_cases hc : (c == bad) = true
    · rw [if_pos hc, hasOpenWs_append_no_dollar (fun x hx => (hgood x hx).1)] at h
      rw [hasOpenWs_cons, ih h, Bool.or_true]
    · rw [if_neg hc, List.singleton_append, hasOpenWs_cons] at h
      rcases Bool.or_eq_true_iff.mp h with hst | hrec
      · obtain ⟨d, tail, heq, hws⟩ := (startsOpenWs_iff _).mp hst
        obtain ⟨rfl, heq2⟩ : c = '$' ∧ replaceChar bad good rest = '{' :: d :: tail := by
          simpa [List.cons.injEq] using heq
        cases rest with
        | nil => simp at heq2
        | cons e r2 =>
          rw [replaceChar_cons] at heq2
          by_cases heb : (e == bad) = true
          · rw [if_pos heb] at heq2
            obtain ⟨g0, g1, rfl⟩ : ∃ g0 g1, good = g0 :: g1 := by
              cases good with
              | nil => exact absurd rfl hne
              | cons g0 g1 => exact ⟨g0, g1, rfl⟩
            have h3 : g0 = '{' ∧ g1 ++ replaceChar bad (g0 :: g1) r2 = d :: tail := by
              simpa [List.cons.injEq] using heq2
            exact absurd h3.1 (hgood g0 (List.mem_cons_self _ _)).2.1
          · rw [if_neg heb, List.singleton_append] at heq2
            obtain ⟨rfl, heq3⟩ : e = '{' ∧ replaceChar bad good r2 = d :: tail := by
              simpa [List.cons.injEq] using heq2
            cases r2 with
            | nil => simp at heq3
            | cons f r3 =>
              rw [replaceChar_cons] at heq3
              by_cases hfb : (f == bad) = true
              · rw [if_pos hfb] at heq3
                obtain ⟨g0, g1, rfl⟩ : ∃ g0 g1, good = g0 :: g1 := by
                  cases good with
                  | nil => exact absurd rfl hne
                  | cons g0 g1 => exact ⟨g0, g1, rfl⟩
                have hg0d : g0 = d := by
                  have h4 : g0 = d ∧ g1 ++ replaceChar bad (g0 :: g1) r3 = tail := by
                    simpa [List.cons.injEq] using heq3
                  exact h4.1
                have := (hgood g0 (List.mem_cons_self _ _)).2.2
                rw [hg0d, hws] at this
                cases this
              · rw [if_neg hfb, List.singleton_append] at heq3
                obtain ⟨rfl, -⟩ : f = d ∧ replaceChar bad good r3 = tail := by
                  simpa [List.cons.injEq] using heq3
                rw [hasOpenWs_cons,
                  (startsOpenWs_iff _).mpr ⟨f, r3, rfl, hws⟩, Bool.true_or]
      · rw [hasOpenWs_cons, ih hrec, Bool.or_true]

theorem hasWsClose_replaceChar_imp {bad : Char} {good : Str}
    (hne : good ≠ [])
    (hgood : ∀ x ∈ good, x ≠ '}' ∧ isPySpace x = false) :
    ∀ l : Str, hasWsClose (replaceChar bad good l) = true → hasWsClose l = true := by
  intro l
  induction l with
  | nil => intro h; simpa using h
  | cons c rest ih =>
    intro h
    rw [replaceChar_cons] at h
    by_cases hc : (c == bad) = true
    · rw [if_pos hc] at h
      have hnw : ∀ x ∈ good, ¬ isPySpace x = true := by
        intro x hx hx2
        rw [(hgood x hx).2] at hx2
        cases hx2
      rw [hasWsClose_append_no_space hnw] at h
      rw [hasWsClose_cons, ih h, Bool.or_true]
    · rw [if_neg hc, List.singleton_append, hasWsClose_cons] at h
      rcases Bool.or_eq_true_iff.mp h with hst | hrec
      · obtain ⟨w, tail, heq, hws⟩ := (startsWsClose_iff _).mp hst
        obtain ⟨rfl, heq2⟩ : c = w ∧ replaceChar bad good rest = '}' :: tail := by
          simpa [List.cons.injEq] using heq
        cases rest with
        | nil => simp at heq2
        | cons e r2 =>
          rw [replaceChar_cons] at heq2
          by_cases heb : (e == bad) = true
          · rw [if_pos heb] at heq2
            obtain ⟨g0, g1, rfl⟩ : ∃ g0 g1, good = g0 :: g1 := by
              cases good with
              | nil => exact absurd rfl hne
              | cons g0 g1 => exact ⟨g0, g1, rfl⟩
            have h3 : g0 = '}' ∧ g1 ++ replaceChar bad (g0 :: g1) r2 = tail := by
              simpa [List.cons.injEq] using heq2
            exact absurd h3.1 (hgood g0 (List.mem_cons_self _ _)).1
          · rw [if_neg heb, List.singleton_append] at heq2
            obtain ⟨rfl, -⟩ : e = '}' ∧ replaceChar bad good r2 = tail := by
              simpa [List.cons.injEq] using heq2
            rw [hasWsClose_cons,
              (startsWsClose_iff _).mpr ⟨c, r2, rfl, hws⟩, Bool.true_or]
      · rw [hasWsClose_cons, ih hrec, Bool.or_true]

/-- A whitespace-inside-open-tag match in the cleaned text comes from one in
the raw text. -/
theorem hasOpenWs_cleanText_imp {t : Str}
    (h : hasOpenWs (cleanText t) = true) : hasOpenWs t = true := by
  rw [cleanText, applyReplacements] at h
  have h1 := hasOpenWs_replaceChar_imp (by decide) (by decide) (by decide) _ h
  have h2 := hasOpenWs_replaceChar_imp (by decide) (by decide) (by decide) _ h1
  have h3 := hasOpenWs_replaceChar_imp (by decide) (by decide) (by decide) _ h2
  have h4 := hasOpenWs_replaceChar_imp (by decide) (by decide) (by decide) _ h3
  have h5 := hasOpenWs_replaceChar_imp (by decide) (by decide) (by decide) _ h4
  have h6 := hasOpenWs_replaceChar_imp (by decide) (by decide) (by decide) _ h5
  have h7 := hasOpenWs_replaceChar_imp (by decide) (by decide) (by decide) _ h6
  exact hasOpenWs_pyStrip_imp h7

/-- A whitespace-before-close-brace match in the cleaned text comes from one
in the raw text. -/
theorem hasWsClose_cleanText_imp {t : Str}
    (h : hasWsClose (cleanText t) = true) : hasWsClose t = true := by
  rw [cleanText, applyReplacements] at h
  have h1 := hasWsClose_replaceChar_imp (by decide) (by decide) _ h
  have h2 := hasWsClose_replaceChar_imp (by decide) (by decide) _ h1
  have h3 := hasWsClose_replaceChar_imp (by decide) (by decide) _ h2
  have h4 := hasWsClose_replaceChar_imp (by decide) (by decide) _ h3
  have h5 := hasWsClose_replaceChar_imp (by decide) (by decide) _ h4
  have h6 := hasWsClose_replaceChar_imp (by decide) (by decide) _ h5
  have h7 := hasWsClose_replaceChar_imp (by decide) (by decide) _ h6
  exact hasWsClose_pyStrip_imp h7


/-! ## Claims C5 and C6: the Tag Validator -/

/-- Helper: on a non-empty text with mismatched brace counts the validator
returns the cleaned text and the CRITICAL message citing both counts. -/
theorem validate_critical_of_ne (t : Str) (h0 : t ≠ [])
    (h : countOpen t ≠ countClose t) :
    validate_and_clean_rpl (some t) =
      (cleanText t, some (criticalMsg (countOpen t) (countClose t))) := by
  show (if t = [] then (([] : Str), (none : Option String)) else _) = _
  rw [if_neg h0]
  show (if countOpen (cleanText t) ≠ countClose (cleanText t) then _ else _) = _
  rw [countOpen_cleanText, countClose_cleanText, if_pos h]

/-- C5: for every non-empty text in which the number of occurrences of the
open marker differs from the number of close braces, the validator returns a
CRITICAL error whose message reports both counts, together with the
typography-cleaned text. -/
theorem claim_C5 (t : Str) (h0 : t ≠ [])
    (h : countOpen t ≠ countClose t) :
    validate_and_clean_rpl (some t) =
      (cleanText t, some (criticalMsg (countOpen t) (countClose t))) :=
  validate_critical_of_ne t h0 h

/-- C5 witness at a concrete input with one open marker and no close brace. -/
theorem claim_C5_witness :
    validate_and_clean_rpl (some ['$', '{', 'x']) =
      (cleanText ['$', '{', 'x'],
       some (criticalMsg (countOpen ['$', '{', 'x']) (countClose ['$', '{', 'x']))) :=
  claim_C5 ['$', '{', 'x'] (by decide) (by decide)

/-- C6: a text with balanced brace counts and no whitespace adjacent to a
marker validates cleanly (the cleaned text is returned with no error); and on
a non-empty text with mismatched counts the reported error is the CRITICAL
one whatever the whitespace situation, so brace balance takes precedence and
at most the one error of the winning check is ever reported. -/
theorem claim_C6 :
    (∀ t : Str, countOpen t = countClose t → hasOpenWs t = false →
      hasWsClose t = false → validate_and_clean_rpl (some t) = (cleanText t, none)) ∧
    (∀ t : Str, t ≠ [] → countOpen t ≠ countClose t →
      (validate_and_clean_rpl (some t)).2 =
        some (criticalMsg (countOpen t) (countClose t))) := by
  constructor
  · intro t h h2 h3
    by_cases h0 : t = []
    · subst h0; rfl
    · show (if t = [] then (([] : Str), (none : Option String)) else _) = _
      rw [if_neg h0]
      show (if countOpen (cleanText t) ≠ countClose (cleanText t) then _ else _) = _
      rw [countOpen_cleanText, countClose_cleanText, if_neg (fun hc => hc h)]
      have how : hasOpenWs (cleanText t) = false := by
        cases hcase : hasOpenWs (cleanText t) with
        | false => rfl
        | true => rw [hasOpenWs_cleanText_imp hcase] at h2; cases h2
      have hwc : hasWsClose (cleanText t) = false := by
        cases hcase : hasWsClose (cleanText t) with
        | false => rfl
        | true => rw [hasWsClose_cleanText_imp hcase] at h3; cases h3
      rw [if_neg (by simp [how, hwc])]
  · intro t h0 h
    rw [validate_critical_of_ne t h0 h]

/-- C6 witness: a balanced tag validates cleanly, and a text with whitespace
inside an unbalanced tag still gets the CRITICAL error. -/
theorem claim_C6_witness :
    validate_and_clean_rpl (some ['$', '{', 'x', '}']) =
      (cleanText ['$', '{', 'x', '}'], none) ∧
    (validate_and_clean_rpl (some ['$', '{', ' ', 'x'])).2 =
      some (criticalMsg (countOpen ['$', '{', ' ', 'x'])
        (countClose ['$', '{', ' ', 'x'])) :=
  ⟨claim_C6.1 ['$', '{', 'x', '}'] (by decide) (by decide) (by decide),
   claim_C6.2 ['$', '{', ' ', 'x'] (by decide) (by decide)⟩


/-! ## Lemmas about rows and cells -/

@[simp] theorem findCol_nil (k : String) : findCol k [] = none := rfl

theorem findCol_cons (k : String) (p : String × Cell) (r : RowT) :
    findCol k (p :: r) = if p.1 = k then some p.2 else findCol k r := rfl

theorem findCol_append_of_some {k : String} {a : RowT} {v : Cell}
    (h : findCol k a = some v) (b : RowT) : findCol k (a ++ b) = some v := by
  induction a with
  | nil => cases h
  | cons p a1 ih =>
    rw [List.cons_append, findCol_cons]
    rw [findCol_cons] at h
    by_cases hp : p.1 = k
    · rw [if_pos hp] at h ⊢
      exact h
    · rw [if_neg hp] at h ⊢
      exact ih h

theorem findCol_append_of_none {k : String} {a : RowT}
    (h : findCol k a = none) (b : RowT) : findCol k (a ++ b) = findCol k b := by
  induction a with
  | nil => rfl
  | cons p a1 ih =>
    rw [List.cons_append, findCol_cons]
    rw [findCol_cons] at h
    by_cases hp : p.1 = k
    · rw [if_pos hp] at h; cases h
    · rw [if_neg hp] at h ⊢
      exact ih h

theorem getCell_append_ne {r : RowT} {k name : String} (h : name ≠ k) (v : Cell) :
    getCell (r ++ [(name, v)]) k = getCell r k := by
  unfold getCell
  cases hf : findCol k r with
  | some w => rw [findCol_append_of_some hf]
  | none =>
    rw [findCol_append_of_none hf, findCol_cons, if_neg h]
    rfl

theorem findCol_mapPairs {l : List String} {f : String → Cell} {k : String}
    (hk : k ∈ l) : findCol k (l.map (fun m => (m, f m))) = some (f k) := by
  induction l with
  | nil => cases hk
  | cons m l1 ih =>
    rw [List.map_cons, findCol_cons]
    by_cases hm : m = k
    · subst hm; rw [if_pos rfl]
    · rcases List.mem_cons.mp hk with rfl | hk2
      · exact absurd rfl hm
      · rw [if_neg hm]
        exact ih hk2

theorem findCol_mapPairs_none {l : List String} {f : String → Cell} {k : String}
    (hk : k ∉ l) : findCol k (l.map (fun m => (m, f m))) = none := by
  induction l with
  | nil => rfl
  | cons m l1 ih =>
    have hmk : ¬ (m = k) := fun hm => hk (by rw [← hm]; exact List.mem_cons_self _ _)
    rw [List.map_cons, findCol_cons, if_neg hmk,
      ih (fun h2 => hk (List.mem_cons_of_mem _ h2))]

theorem getCell_mkLong_meta {idVars : List String} {k : String} (hk : k ∈ idVars)
    (v : String) (r : RowT) : getCell (mkLong idVars v r) k = getCell r k := by
  rw [mkLong, getCell, findCol_append_of_some (findCol_mapPairs hk)]
  rfl

theorem getCell_mkLong_lang {idVars : List String}
    (h : "SITE_LANGUAGE" ∉ idVars) (v : String) (r : RowT) :
    getCell (mkLong idVars v r) "SITE_LANGUAGE" = some v.data := by
  rw [mkLong, getCell, findCol_append_of_none (findCol_mapPairs_none h),
    findCol_cons, if_pos rfl]
  rfl

theorem getCell_mkLong_content {idVars : List String}
    (h : "Content" ∉ idVars) (v : String) (r : RowT) :
    getCell (mkLong idVars v r) "Content" = getCell r v := by
  rw [mkLong, getCell, findCol_append_of_none (findCol_mapPairs_none h),
    findCol_cons, if_neg (show ("SITE_LANGUAGE" : String) ≠ "Content" by decide),
    findCol_cons, if_pos rfl]
  rfl

theorem mem_melt {df : DF} {idVars valueVars : List String} {y : RowT} :
    y ∈ melt df idVars valueVars ↔
      ∃ v ∈ valueVars, ∃ r ∈ df.rows, y = mkLong idVars v r := by
  rw [melt, List.mem_flatMap]
  constructor
  · rintro ⟨v, hv, hy⟩
    obtain ⟨r, hr, rfl⟩ := List.mem_map.mp hy
    exact ⟨v, hv, r, hr, rfl⟩
  · rintro ⟨v, hv, r, hr, rfl⟩
    exact ⟨v, hv, List.mem_map.mpr ⟨r, hr, rfl⟩⟩

theorem mem_prune {l : List RowT} {y : RowT} :
    y ∈ prune l ↔ y ∈ l ∧ ∃ s, getCell y "Content" = some s ∧ s ≠ [] := by
  rw [prune, List.mem_filter, List.mem_filter]
  constructor
  · rintro ⟨⟨hy, hsome⟩, hne⟩
    obtain ⟨s, hs⟩ := Option.isSome_iff_exists.mp hsome
    refine ⟨hy, s, hs, ?_⟩
    rintro rfl
    exact (of_decide_eq_true hne) hs
  · rintro ⟨hy, s, hs, hsne⟩
    refine ⟨⟨hy, by rw [hs]; rfl⟩, decide_eq_true ?_⟩
    rw [hs]
    intro hc
    exact hsne (by injection hc)

theorem prune_eq_self {l : List RowT}
    (h : ∀ r ∈ l, ∃ s, getCell r "Content" = some s ∧ s ≠ []) : prune l = l := by
  rw [prune]
  have h1 : List.filter (fun r => (getCell r "Content").isSome) l = l := by
    rw [List.filter_eq_self]
    intro r hr
    obtain ⟨s, hs, -⟩ := h r hr
    rw [hs]; rfl
  rw [h1, List.filter_eq_self]
  intro r hr
  obtain ⟨s, hs, hne⟩ := h r hr
  apply decide_eq_true
  rw [hs]
  intro hc
  exact hne (by injection hc)

theorem findCol_eq_none_of_not_any {r : RowT} {k : String}
    (h : r.any (fun p => p.1 == k) = false) : findCol k r = none := by
  induction r with
  | nil => rfl
  | cons p r1 ih =>
    rw [List.any_cons, Bool.or_eq_false_iff] at h
    rw [findCol_cons, if_neg (by simpa using h.1)]
    exact ih h.2

theorem findCol_map_set_ne {r : RowT} {k k2 : String} (h : k2 ≠ k) (v : Cell) :
    findCol k2 (r.map (fun p => if p.1 == k then (k, v) else p)) = findCol k2 r := by
  induction r with
  | nil => rfl
  | cons p r1 ih =>
    rw [List.map_cons, findCol_cons, findCol_cons]
    by_cases hp : (p.1 == k) = true
    · rw [if_pos hp]
      have hp2 : p.1 = k := by simpa using hp
      rw [if_neg (fun hc => h hc.symm), if_neg (fun hc => h (hp2 ▸ hc).symm)]
      exact ih
    · rw [if_neg hp]
      by_cases hq : p.1 = k2
      · rw [if_pos hq, if_pos hq]
      · rw [if_neg hq, if_neg hq]
        exact ih

theorem getCell_setCell_ne (r : RowT) {k k2 : String} (h : k2 ≠ k) (v : Cell) :
    getCell (setCell r k v) k2 = getCell r k2 := by
  rw [setCell]
  by_cases ha : r.any (fun p => p.1 == k) = true
  · rw [if_pos ha, getCell, findCol_map_set_ne h, getCell]
  · rw [if_neg ha]
    exact getCell_append_ne (fun hc => h hc.symm) v

theorem findCol_map_set_same {r : RowT} {k : String} (v : Cell)
    (h : r.any (fun p => p.1 == k) = true) :
    findCol k (r.map (fun p => if p.1 == k then (k, v) else p)) = some v := by
  induction r with
  | nil => cases h
  | cons p r1 ih =>
    rw [List.any_cons, Bool.or_eq_true_iff] at h
    rw [List.map_cons]
    by_cases hp : (p.1 == k) = true
    · rw [if_pos hp, findCol_cons, if_pos rfl]
    · rw [if_neg hp, findCol_cons, if_neg (by simpa using hp)]
      exact ih (h.resolve_left hp)

theorem getCell_setCell_same (r : RowT) (k : String) (v : Cell) :
    getCell (setCell r k v) k = v := by
  rw [setCell]
  by_cases ha : r.any (fun p => p.1 == k) = true
  · rw [if_pos ha, getCell, findCol_map_set_same v ha]
    rfl
  · rw [if_neg ha, getCell,
      findCol_append_of_none (findCol_eq_none_of_not_any (Bool.eq_false_iff.mpr ha)),
      findCol_cons, if_pos rfl]
    rfl


/-! ## The fallback fill, row by row -/

/-- The per-row residue of the fallback loop: the same column steps applied
to a single row. -/
def rowFallback (langs : List String) (r : RowT) : RowT :=
  langs.foldl (fun r2 lang =>
    if lang ≠ "EN" then
      (if (getCell r2 lang).isNone then setCell r2 lang (getCell r2 "EN") else r2)
    else r2) r

theorem applyFallback_eq (df : DF) (langs : List String) :
    applyFallback df langs = ⟨df.cols, df.rows.map (rowFallback langs)⟩ := by
  induction langs generalizing df with
  | nil =>
    cases df with
    | mk cols rows =>
      simp only [applyFallback, List.foldl_nil]
      refine congrArg (DF.mk cols) ?_
      have hmapid : List.map (rowFallback []) rows = List.map id rows :=
        List.map_congr_left (fun r _ => rfl)
      rw [hmapid, List.map_id]
  | cons lang ls ih =>
    have h1 : applyFallback df (lang :: ls) =
        applyFallback (if lang ≠ "EN" then fillnaFromEN df lang else df) ls := rfl
    have h2 : ∀ r, rowFallback (lang :: ls) r = rowFallback ls
        (if lang ≠ "EN" then
          (if (getCell r lang).isNone then setCell r lang (getCell r "EN") else r)
         else r) := fun r => rfl
    rw [h1]
    by_cases hL : lang ≠ "EN"
    · rw [if_pos hL, ih]
      cases df with
      | mk cols rows =>
        simp only [fillnaFromEN, List.map_map]
        refine congrArg (DF.mk cols) ?_
        refine List.map_congr_left (fun r hr => ?_)
        rw [Function.comp_apply, h2 r, if_pos hL]
    · rw [if_neg hL, ih]
      cases df with
      | mk cols rows =>
        refine congrArg (DF.mk cols) ?_
        refine List.map_congr_left (fun r hr => ?_)
        rw [h2 r, if_neg hL]

theorem rowFallback_getCell (langs : List String) (r : RowT) (c : String) :
    getCell (rowFallback langs r) c =
      if c ∈ langs ∧ c ≠ "EN" ∧ getCell r c = none then getCell r "EN"
      else getCell r c := by
  induction langs generalizing r with
  | nil => simp [rowFallback]
  | cons lang ls ih =>
    have hstep : rowFallback (lang :: ls) r = rowFallback ls
        (if lang ≠ "EN" then
          (if (getCell r lang).isNone then setCell r lang (getCell r "EN") else r)
         else r) := rfl
    rw [hstep]
    by_cases hL : lang ≠ "EN"
    · rw [if_pos hL]
      by_cases hN : (getCell r lang).isNone = true
      · rw [if_pos hN, ih]
        have hEN : getCell (setCell r lang (getCell r "EN")) "EN" = getCell r "EN" :=
          getCell_setCell_ne r (fun hc => hL hc.symm) _
        by_cases hcl : c = lang
        · subst hcl
          have hcc : getCell (setCell r c (getCell r "EN")) c = getCell r "EN" :=
            getCell_setCell_same r c _
          have hrc : getCell r c = none := Option.isNone_iff_eq_none.mp hN
          rw [if_pos (show c ∈ c :: ls ∧ c ≠ "EN" ∧ getCell r c = none from
            ⟨List.mem_cons_self _ _, hL, hrc⟩)]
          by_cases hc2 : c ∈ ls ∧ c ≠ "EN" ∧ getCell (setCell r c (getCell r "EN")) c = none
          · rw [if_pos hc2, hEN]
          · rw [if_neg hc2, hcc]
        · have hcc : getCell (setCell r lang (getCell r "EN")) c = getCell r c :=
            getCell_setCell_ne r hcl _
          rw [hcc, hEN]
          by_cases hc2 : c ∈ ls ∧ c ≠ "EN" ∧ getCell r c = none
          · rw [if_pos hc2,
              if_pos (show c ∈ lang :: ls ∧ c ≠ "EN" ∧ getCell r c = none from
                ⟨List.mem_cons_of_mem _ hc2.1, hc2.2⟩)]
          · have himp : ¬ (c ∈ lang :: ls ∧ c ≠ "EN" ∧ getCell r c = none) := by
              intro hc3
              apply hc2
              rcases List.mem_cons.mp hc3.1 with rfl | hmem
              · exact absurd rfl hcl
              · exact ⟨hmem, hc3.2⟩
            rw [if_neg hc2, if_neg himp]
      · rw [if_neg hN, ih]
        by_cases hc2 : c ∈ ls ∧ c ≠ "EN" ∧ getCell r c = none
        · rw [if_pos hc2,
            if_pos (show c ∈ lang :: ls ∧ c ≠ "EN" ∧ getCell r c = none from
              ⟨List.mem_cons_of_mem _ hc2.1, hc2.2⟩)]
        · have himp : ¬ (c ∈ lang :: ls ∧ c ≠ "EN" ∧ getCell r c = none) := by
            intro hc3
            apply hc2
            rcases List.mem_cons.mp hc3.1 with rfl | hmem
            · exfalso
              apply hN
              rw [hc3.2.2]
              rfl
            · exact ⟨hmem, hc3.2⟩
          rw [if_neg hc2, if_neg himp]
    · rw [if_neg hL, ih]
      have hLe : lang = "EN" := not_not.mp hL
      by_cases hc2 : c ∈ ls ∧ c ≠ "EN" ∧ getCell r c = none
      · rw [if_pos hc2,
          if_pos (show c ∈ lang :: ls ∧ c ≠ "EN" ∧ getCell r c = none from
            ⟨List.mem_cons_of_mem _ hc2.1, hc2.2⟩)]
      · have himp : ¬ (c ∈ lang :: ls ∧ c ≠ "EN" ∧ getCell r c = none) := by
          intro hc3
          apply hc2
          rcases List.mem_cons.mp hc3.1 with rfl | hmem
          · exact absurd hLe hc3.2.1
          · exact ⟨hmem, hc3.2⟩
        rw [if_neg hc2, if_neg himp]


/-! ## Claims C3 and C10 -/

/-- The spec scenario table: Priority 1, Module_Type Email, DB_Field_Name
Subject, EN "Hello", SV the empty string. -/
def scenarioDF : DF :=
  ⟨["Priority", "Module_Type", "DB_Field_Name", "EN", "SV"],
   [[("Priority", some ['1']), ("Module_Type", some "Email".data),
     ("DB_Field_Name", some "Subject".data), ("EN", some "Hello".data),
     ("SV", some [])]]⟩

/-- The three mandatory metadata columns. -/
def baseMeta : List String := ["Priority", "Module_Type", "DB_Field_Name"]

/-- C3 counterexample: on the spec scenario (SV is the empty string, fallback
enabled) the fallback does not fill SV — the returned table still holds the
empty string — the run succeeds, and no output row carries language SV, so
the output has no SV content "Hello" at all. -/
theorem claim_C3_counterexample :
    getCell ((generate_csv_logic scenarioDF baseMeta ["EN", "SV"]
        "NF_Campaign_Name".data true).1.rows.headD []) "SV" = some [] ∧
    ((generate_csv_logic scenarioDF baseMeta ["EN", "SV"]
        "NF_Campaign_Name".data true).2.1.getD ⟨[], []⟩).rows.all
      (fun r => decide (getCell r "SITE_LANGUAGE" ≠ some "SV".data)) = true ∧
    (generate_csv_logic scenarioDF baseMeta ["EN", "SV"]
        "NF_Campaign_Name".data true).2.2 = none := by
  decide

/-- C3 (amended): with fallback enabled and an EN column present, the fallback
step of generate_csv_logic fills exactly the absent (NaN) cells of the other
language columns from the row-aligned EN cell; every present cell — the empty
string included — is left unchanged, as is everything outside the language
columns. -/
theorem claim_C3 (df : DF) (langCols : List String)
    (hen : "EN" ∈ df.cols) (i : Nat) (r : RowT) (hr : df.rows[i]? = some r)
    (c : String) :
    ∃ r2, (csvFallbackDF df langCols true).rows[i]? = some r2 ∧
      (c ∈ langCols → c ≠ "EN" → getCell r c = none →
        getCell r2 c = getCell r "EN") ∧
      (c ∉ langCols ∨ c = "EN" ∨ getCell r c ≠ none →
        getCell r2 c = getCell r c) := by
  have hdf : csvFallbackDF df langCols true = applyFallback df langCols := by
    rw [csvFallbackDF, if_pos]
    simp [hen]
  refine ⟨rowFallback langCols r, ?_, ?_, ?_⟩
  · rw [hdf, applyFallback_eq]
    show (df.rows.map (rowFallback langCols))[i]? = _
    rw [List.getElem?_map, hr]
    rfl
  · intro h1 h2 h3
    rw [rowFallback_getCell, if_pos ⟨h1, h2, h3⟩]
  · intro hor
    rw [rowFallback_getCell, if_neg]
    rintro ⟨hin, hne, hnone⟩
    rcases hor with h | h | h
    · exact h hin
    · exact hne h
    · exact h hnone

/-- The scenario table with an absent (NaN) SV cell instead of the empty
string. -/
def scenarioNaNDF : DF :=
  ⟨["Priority", "Module_Type", "DB_Field_Name", "EN", "SV"],
   [[("Priority", some ['1']), ("Module_Type", some "Email".data),
     ("DB_Field_Name", some "Subject".data), ("EN", some "Hello".data),
     ("SV", none)]]⟩

/-- C3 witness: the amended statement applied to a concrete table whose SV
cell is NaN. -/
theorem claim_C3_witness :
    ∃ r2, (csvFallbackDF scenarioNaNDF ["EN", "SV"] true).rows[0]? = some r2 ∧
      ("SV" ∈ ["EN", "SV"] → "SV" ≠ "EN" →
        getCell [("Priority", some ['1']), ("Module_Type", some "Email".data),
          ("DB_Field_Name", some "Subject".data), ("EN", some "Hello".data),
          ("SV", none)] "SV" = none →
        getCell r2 "SV" =
          getCell [("Priority", some ['1']), ("Module_Type", some "Email".data),
            ("DB_Field_Name", some "Subject".data), ("EN", some "Hello".data),
            ("SV", none)] "EN") ∧
      ("SV" ∉ ["EN", "SV"] ∨ "SV" = "EN" ∨
        getCell [("Priority", some ['1']), ("Module_Type", some "Email".data),
          ("DB_Field_Name", some "Subject".data), ("EN", some "Hello".data),
          ("SV", none)] "SV" ≠ none →
        getCell r2 "SV" =
          getCell [("Priority", some ['1']), ("Module_Type", some "Email".data),
            ("DB_Field_Name", some "Subject".data), ("EN", some "Hello".data),
            ("SV", none)] "SV") :=
  claim_C3 scenarioNaNDF ["EN", "SV"] (by decide) 0 _ rfl "SV"

/-- The table whose EN cell carries a leading space, which the JSON path
cleans in place. -/
def mutationDF : DF :=
  ⟨["Priority", "Module_Type", "DB_Field_Name", "EN"],
   [[("Priority", some ['1']), ("Module_Type", some "Email".data),
     ("DB_Field_Name", some "Subject".data), ("EN", some (' ' :: "Hi".data))]]⟩

/-- C10 counterexample: generate_json_logic does not leave its input table
unchanged — the cleaning loop strips the EN cell in place. -/
theorem claim_C10_counterexample :
    (generate_json_logic mutationDF baseMeta ["EN"]
      "NF_Campaign_Name".data).1 ≠ mutationDF := by
  decide

/-- C10 (amended): the CSV path leaves the input unchanged when the fallback
is disabled (otherwise the fallback assigns into it), and the table the JSON
path hands back is the input as mutated by its in-place cleaning loop. -/
theorem claim_C10 (df : DF) (existingMeta langCols : List String) (camp : Str) :
    (generate_csv_logic df existingMeta langCols camp false).1 = df ∧
    (generate_json_logic df existingMeta langCols camp).1 =
      (jsonCleanDF df langCols).1 := by
  constructor
  · simp only [generate_csv_logic]
    split <;> simp [csvFallbackDF]
  · simp only [generate_json_logic]
    split <;> rfl


/-! ## Claims C1 and C9: error propagation -/

theorem foldl_jsonCleanStep_snd (ls : List String) :
    ∀ (d : DF) (e : List JsonErr),
      (ls.foldl jsonCleanStep (d, e)).2 = e ++ (ls.foldl jsonCleanStep (d, [])).2 := by
  induction ls with
  | nil => intro d e; simp
  | cons col ls ih =>
    intro d e
    rw [List.foldl_cons, List.foldl_cons, jsonCleanStep, jsonCleanStep]
    show (ls.foldl jsonCleanStep (jsonCleanCol d col, e ++ jsonColErrors d.rows col)).2 = _
    rw [ih (jsonCleanCol d col) (e ++ jsonColErrors d.rows col),
      ih (jsonCleanCol d col) ([] ++ jsonColErrors d.rows col), List.nil_append,
      List.append_assoc]

theorem jsonColErrors_setCol {rows : List RowT} {col c : String} (h : c ≠ col)
    (g : RowT → Cell) :
    jsonColErrors (rows.map (fun r => setCell r col (g r))) c =
      jsonColErrors rows c := by
  rw [jsonColErrors, jsonColErrors, List.enum_map, List.filterMap_map]
  refine List.filterMap_congr ?_
  rintro ⟨i, r⟩ hp
  simp only [Function.comp, Prod.map, id_eq]
  rw [getCell_setCell_ne _ h]

/-- Closed form of the cleaning loop's error list: it is exactly the
column-major concatenation of every column's per-cell errors, each computed
against the original table. -/
theorem jsonCleanDF_errors (df : DF) (langCols : List String)
    (hnd : langCols.Nodup) :
    (jsonCleanDF df langCols).2 =
      langCols.flatMap (fun col => jsonColErrors df.rows col) := by
  induction langCols generalizing df with
  | nil => rfl
  | cons col ls ih =>
    obtain ⟨hmem, hnd2⟩ := List.nodup_cons.mp hnd
    rw [jsonCleanDF, List.foldl_cons, jsonCleanStep]
    show (ls.foldl jsonCleanStep (jsonCleanCol df col, [] ++ jsonColErrors df.rows col)).2 = _
    rw [foldl_jsonCleanStep_snd ls (jsonCleanCol df col),
      List.nil_append, List.flatMap_cons]
    refine congrArg (jsonColErrors df.rows col ++ ·) ?_
    show (jsonCleanDF (jsonCleanCol df col) ls).2 = _
    rw [ih (jsonCleanCol df col) hnd2]
    refine List.flatMap_congr ?_
    intro c hc
    show jsonColErrors (df.rows.map _) c = _
    exact jsonColErrors_setCol (fun hcc => hmem (by rw [← hcc]; exact hc)) _

/-- C1: whenever the validation pass of either output path finds any error,
that path returns no output artifact and returns exactly the full error list
of the pass; and every failing cell of the pass contributes its error record
to that list (membership conjuncts), so no error is dropped. -/
theorem claim_C1 (df : DF) (existingMeta langCols : List String) (camp : Str)
    (fb : Bool) (hnd : langCols.Nodup) :
    (csvErrList df existingMeta langCols fb ≠ [] →
      (generate_csv_logic df existingMeta langCols camp fb).2.1 = none ∧
      (generate_csv_logic df existingMeta langCols camp fb).2.2 =
        some (csvErrList df existingMeta langCols fb)) ∧
    ((jsonCleanDF df langCols).2 ≠ [] →
      (generate_json_logic df existingMeta langCols camp).2.1 = none ∧
      (generate_json_logic df existingMeta langCols camp).2.2 =
        some ((jsonCleanDF df langCols).2)) ∧
    (∀ r ∈ prune (melt (csvFallbackDF df langCols fb) existingMeta langCols),
      ∀ m, (validate_and_clean_rpl (getCell r "Content")).2 = some m →
        ({ lang := getCell r "SITE_LANGUAGE", field := getCell r "DB_Field_Name",
           error := m, content := getCell r "Content" } : CsvErr) ∈
          csvErrList df existingMeta langCols fb) ∧
    (∀ col ∈ langCols, ∀ p ∈ df.rows.enum,
      ∀ m, (validate_and_clean_rpl (getCell p.2 col)).2 = some m →
        ({ row := p.1, lang := col, error := m,
           content := getCell p.2 col } : JsonErr) ∈ (jsonCleanDF df langCols).2) := by
  refine ⟨?_, ?_, ?_, ?_⟩
  · intro h
    have h2 : (csvValidate (prune (melt (csvFallbackDF df langCols fb)
        existingMeta langCols))).2 ≠ [] := h
    simp only [generate_csv_logic]
    rw [if_pos h2]
    exact ⟨rfl, rfl⟩
  · intro h
    simp only [generate_json_logic]
    rw [if_pos h]
    exact ⟨rfl, rfl⟩
  · intro r hr m hm
    show _ ∈ (prune (melt (csvFallbackDF df langCols fb) existingMeta langCols)).filterMap _
    exact List.mem_filterMap.mpr ⟨r, hr, by rw [hm]; rfl⟩
  · intro col hcol p hp m hm
    rw [jsonCleanDF_errors df langCols hnd]
    refine List.mem_flatMap.mpr ⟨col, hcol, ?_⟩
    exact List.mem_filterMap.mpr ⟨p, hp, by rw [hm]; rfl⟩

/-- A one-row table whose EN cell has a curly quote and an unclosed tag. -/
def errRow : RowT :=
  [("Priority", some ['1']), ("Module_Type", some "Email".data),
   ("DB_Field_Name", some "Subject".data), ("EN", some ['“', '$', '{', 'x'])]

/-- The table around errRow. -/
def errDF : DF := ⟨["Priority", "Module_Type", "DB_Field_Name", "EN"], [errRow]⟩

/-- C1 witness: the blocking behaviour and both membership conjuncts, applied
to a concrete failing table. -/
theorem claim_C1_witness :
    ((generate_csv_logic errDF baseMeta ["EN"] "NF_Campaign_Name".data false).2.1 =
        none ∧
      (generate_csv_logic errDF baseMeta ["EN"] "NF_Campaign_Name".data false).2.2 =
        some (csvErrList errDF baseMeta ["EN"] false)) ∧
    ((generate_json_logic errDF baseMeta ["EN"] "NF_Campaign_Name".data).2.1 = none ∧
      (generate_json_logic errDF baseMeta ["EN"] "NF_Campaign_Name".data).2.2 =
        some ((jsonCleanDF errDF ["EN"]).2)) ∧
    ({ lang := getCell (mkLong baseMeta "EN" errRow) "SITE_LANGUAGE",
       field := getCell (mkLong baseMeta "EN" errRow) "DB_Field_Name",
       error := criticalMsg 1 0,
       content := getCell (mkLong baseMeta "EN" errRow) "Content" } : CsvErr) ∈
      csvErrList errDF baseMeta ["EN"] false ∧
    ({ row := 0, lang := "EN", error := criticalMsg 1 0,
       content := getCell errRow "EN" } : JsonErr) ∈ (jsonCleanDF errDF ["EN"]).2 := by
  have h := claim_C1 errDF baseMeta ["EN"] "NF_Campaign_Name".data false (by decide)
  exact ⟨h.1 (by decide), h.2.1 (by decide),
    h.2.2.1 (mkLong baseMeta "EN" errRow) (by decide) (criticalMsg 1 0) (by decide),
    h.2.2.2 "EN" (by decide) (0, errRow) (by decide) (criticalMsg 1 0) (by decide)⟩

/-- C9 counterexample: the single error of a concrete failing run carries the
raw cell text (curly quote included), which differs from the text after
typography cleanup — the claim that errors carry the post-cleanup text fails.
The JSON-path error record of the same run carries no field name at all. -/
theorem claim_C9_counterexample :
    csvErrList errDF baseMeta ["EN"] false =
      [{ lang := some "EN".data, field := some "Subject".data,
         error := criticalMsg 1 0, content := some ['“', '$', '{', 'x'] }] ∧
    some (validate_and_clean_rpl (some ['“', '$', '{', 'x'])).1 ≠
      (some (some ['“', '$', '{', 'x']) : Option Cell).get (by decide) := by
  decide

/-- C9 (amended): every CSV-path error carries the language, the field name,
the message and the raw (pre-cleanup) content of some failing pruned record;
every JSON-path error carries the row index, the language column, the message
and the raw content of some failing cell — with no field name recorded. -/
theorem claim_C9 (df : DF) (existingMeta langCols : List String) (fb : Bool)
    (hnd : langCols.Nodup) :
    (∀ e ∈ csvErrList df existingMeta langCols fb,
      ∃ r ∈ prune (melt (csvFallbackDF df langCols fb) existingMeta langCols),
        (validate_and_clean_rpl (getCell r "Content")).2 = some e.error ∧
        e.lang = getCell r "SITE_LANGUAGE" ∧ e.field = getCell r "DB_Field_Name" ∧
        e.content = getCell r "Content") ∧
    (∀ e ∈ (jsonCleanDF df langCols).2,
      ∃ col ∈ langCols, ∃ p ∈ df.rows.enum,
        e.row = p.1 ∧ e.lang = col ∧
        (validate_and_clean_rpl (getCell p.2 col)).2 = some e.error ∧
        e.content = getCell p.2 col) := by
  constructor
  · intro e he
    have he2 : e ∈ (prune (melt (csvFallbackDF df langCols fb) existingMeta
        langCols)).filterMap (fun r =>
          (validate_and_clean_rpl (getCell r "Content")).2.map (fun m =>
            { lang := getCell r "SITE_LANGUAGE", field := getCell r "DB_Field_Name",
              error := m, content := getCell r "Content" })) := he
    obtain ⟨r, hr, hfr⟩ := List.mem_filterMap.mp he2
    obtain ⟨m, hm, hmk⟩ := Option.map_eq_some'.mp hfr
    exact ⟨r, hr, by rw [← hmk, hm], by rw [← hmk], by rw [← hmk], by rw [← hmk]⟩
  · intro e he
    rw [jsonCleanDF_errors df langCols hnd] at he
    obtain ⟨col, hcol, he2⟩ := List.mem_flatMap.mp he
    obtain ⟨p, hp, hfp⟩ := List.mem_filterMap.mp he2
    obtain ⟨m, hm, hmk⟩ := Option.map_eq_some'.mp hfp
    exact ⟨col, hcol, p, hp, by rw [← hmk], by rw [← hmk],
      by rw [← hmk, hm], by rw [← hmk]⟩

/-- C9 witness: the amended statement applied to the concrete failing run. -/
theorem claim_C9_witness :
    (∀ e ∈ csvErrList errDF baseMeta ["EN"] false,
      ∃ r ∈ prune (melt (csvFallbackDF errDF ["EN"] false) baseMeta ["EN"]),
        (validate_and_clean_rpl (getCell r "Content")).2 = some e.error ∧
        e.lang = getCell r "SITE_LANGUAGE" ∧ e.field = getCell r "DB_Field_Name" ∧
        e.content = getCell r "Content") ∧
    (∀ e ∈ (jsonCleanDF errDF ["EN"]).2,
      ∃ col ∈ ["EN"], ∃ p ∈ errDF.rows.enum,
        e.row = p.1 ∧ e.lang = col ∧
        (validate_and_clean_rpl (getCell p.2 col)).2 = some e.error ∧
        e.content = getCell p.2 col) :=
  claim_C9 errDF baseMeta ["EN"] false (by decide)


/-! ## Claim C8: the key loop's gather filter -/

/-- pandas == with a present value on both sides is value equality. -/
theorem pdEq_eq_true_iff {a b : Cell} :
    pdEq a b = true ↔ ∃ x, a = some x ∧ b = some x := by
  cases a with
  | none => simp [pdEq]
  | some x =>
    cases b with
    | none => simp [pdEq]
    | some y =>
      simp only [pdEq, decide_eq_true_eq]
      constructor
      · rintro rfl
        exact ⟨x, rfl, rfl⟩
      · rintro ⟨z, hz1, hz2⟩
        have h1 : x = z := by injection hz1
        have h2 : y = z := by injection hz2
        rw [h1, h2]

/-- pandas == against NaN is false everywhere. -/
theorem pdEq_none_right (a : Cell) : pdEq a none = false := by
  cases a <;> rfl

/-- C8: the records gathered for a key tuple are exactly those of the long
data whose campaign, priority and language cells are present and equal to the
key's — the pandas filter compares these three components only and never
consults SITE_BRAND, so keys differing only in brand consult the same subset
(the processKey equation passes the brand only into the value tuple); a key
whose gathered subset is empty contributes nothing, and in particular a key
with an absent campaign, priority or language gathers nothing (NaN compares
unequal to everything in pandas) and is always skipped. -/
theorem claim_C8 (melted : List RowT) (d : GroupDict)
    (camp prio lang brand : Cell) :
    (∀ r, r ∈ subsetFor melted camp prio lang ↔
      (r ∈ melted ∧
        (∃ x, getCell r "CAMPAIGN_NAME" = some x ∧ camp = some x) ∧
        (∃ x, getCell r "Priority" = some x ∧ prio = some x) ∧
        (∃ x, getCell r "SITE_LANGUAGE" = some x ∧ lang = some x))) ∧
    (processKey melted d (camp, prio, lang, brand) =
      if subsetFor melted camp prio lang = [] then d
      else dictAppend d (buildShape (subsetFor melted camp prio lang))
        (buildValues camp prio lang brand (subsetFor melted camp prio lang))) ∧
    (subsetFor melted camp prio lang = [] →
      processKey melted d (camp, prio, lang, brand) = d) ∧
    (camp = none ∨ prio = none ∨ lang = none →
      processKey melted d (camp, prio, lang, brand) = d) := by
  refine ⟨?_, rfl, ?_, ?_⟩
  · intro r
    rw [subsetFor, List.mem_filter]
    simp only [Bool.and_eq_true, pdEq_eq_true_iff, and_assoc]
  · intro h
    show (if subsetFor melted camp prio lang = [] then d else _) = d
    rw [if_pos h]
  · intro hnone
    have hempty : subsetFor melted camp prio lang = [] := by
      rw [List.eq_nil_iff_forall_not_mem]
      intro r hr
      have hp := (List.mem_filter.mp hr).2
      rw [Bool.and_eq_true, Bool.and_eq_true] at hp
      rcases hnone with h | h | h
      · rw [h, pdEq_none_right] at hp
        cases hp.1.1
      · rw [h, pdEq_none_right] at hp
        cases hp.1.2
      · rw [h, pdEq_none_right] at hp
        cases hp.2
    show (if subsetFor melted camp prio lang = [] then d else _) = d
    rw [if_pos hempty]

/-- A long row whose brand differs from the key it is gathered for. -/
def brandRow : RowT :=
  [("CAMPAIGN_NAME", some "NF".data), ("Priority", some ['1']),
   ("SITE_LANGUAGE", some "EN".data), ("SITE_BRAND", some "B2".data),
   ("DB_Field_Name", some "Subject".data), ("Content", some "Hi".data)]

/-- C8 witness: a row with brand B2 is gathered for a key with brand ALL
(brand is not filtered), a key matching no row is skipped, and a key with an
absent campaign gathers nothing and is skipped. -/
theorem claim_C8_witness :
    (brandRow ∈ subsetFor [brandRow] (some "NF".data) (some ['1'])
      (some "EN".data)) ∧
    (processKey [brandRow] []
      (some "NF".data, some ['1'], some "SV".data, some "ALL".data) = []) ∧
    (processKey [brandRow] []
      (none, some ['1'], some "EN".data, some "ALL".data) = []) :=
  ⟨((claim_C8 [brandRow] [] (some "NF".data) (some ['1']) (some "EN".data)
      (some "ALL".data)).1 brandRow).mpr
    ⟨by decide, ⟨"NF".data, by decide, by decide⟩,
     ⟨['1'], by decide, by decide⟩, ⟨"EN".data, by decide, by decide⟩⟩,
   (claim_C8 [brandRow] [] (some "NF".data) (some ['1']) (some "SV".data)
      (some "ALL".data)).2.2.1 (by decide),
   (claim_C8 [brandRow] [] none (some ['1']) (some "EN".data)
      (some "ALL".data)).2.2.2 (Or.inl rfl)⟩

/-! ## Claims C4 and C7: the payload invariants -/

theorem mem_dictAppend {d : GroupDict} {shape : List Cell} {rec : List Str}
    {p : List Cell × List (List Str)} (hp : p ∈ dictAppend d shape rec) :
    p ∈ d ∨ (∃ q ∈ d, q.1 = shape ∧ p = (q.1, q.2 ++ [rec])) ∨
      p = (shape, [rec]) := by
  rw [dictAppend] at hp
  by_cases hany : d.any (fun q => decide (q.1 = shape)) = true
  · rw [if_pos hany] at hp
    obtain ⟨q, hq, hpq⟩ := List.mem_map.mp hp
    by_cases hqs : q.1 = shape
    · right; left
      exact ⟨q, hq, hqs, by rw [← hpq, if_pos (decide_eq_true hqs)]⟩
    · left
      rw [← hpq, if_neg (fun hc => hqs (of_decide_eq_true hc))]
      exact hq
  · rw [if_neg hany] at hp
    rcases List.mem_append.mp hp with h | h
    · exact Or.inl h
    · right; right
      simpa using h

theorem foldl_processKey_inv {melted : List RowT}
    {P : List Cell × List (List Str) → Prop}
    (hstep : ∀ (d : GroupDict) (key : Cell × Cell × Cell × Cell),
      (∀ q ∈ d, P q) → ∀ p ∈ processKey melted d key, P p) :
    ∀ (keys : List (Cell × Cell × Cell × Cell)) (d : GroupDict),
      (∀ q ∈ d, P q) → ∀ p ∈ keys.foldl (processKey melted) d, P p := by
  intro keys
  induction keys with
  | nil => exact fun d hd p hp => hd p hp
  | cons k ks ih =>
    intro d hd p hp
    rw [List.foldl_cons] at hp
    exact ih (processKey melted d k) (hstep d k hd) p hp

theorem buildShape_length (subset : List RowT) :
    (buildShape subset).length = 4 + subset.length := by
  simp [buildShape, baseFields]
  omega

theorem buildValues_length (c p l b : Cell) (subset : List RowT) :
    (buildValues c p l b subset).length = 4 + subset.length := by
  simp [buildValues]
  omega

theorem buildShape_take4 (subset : List RowT) :
    (buildShape subset).take 4 = baseFields := by
  rw [buildShape]
  show (baseFields ++ subset.map (fun r => getCell r "DB_Field_Name")).take
    baseFields.length = baseFields
  exact List.take_left ..

theorem buildValues_drop4 (c p l b : Cell) (subset : List RowT) :
    (buildValues c p l b subset).drop 4 =
      subset.map (fun r => pyStr (getCell r "Content")) := by
  rw [buildValues]
  show ([pyStr c, pyStr p, pyStr l, pyStr b] ++
      subset.map (fun r => pyStr (getCell r "Content"))).drop
    ([pyStr c, pyStr p, pyStr l, pyStr b]).length =
    subset.map (fun r => pyStr (getCell r "Content"))
  exact List.drop_left ..

theorem processKey_inv_step {melted : List RowT}
    {P : List Cell × List (List Str) → Prop}
    (hold : ∀ (q : List Cell × List (List Str)) (rec : List Str)
      (subset : List RowT) (key : Cell × Cell × Cell × Cell),
      subset = subsetFor melted key.1 key.2.1 key.2.2.1 →
      rec = buildValues key.1 key.2.1 key.2.2.1 key.2.2.2 subset →
      q.1 = buildShape subset → P q → P (q.1, q.2 ++ [rec]))
    (hnew : ∀ (subset : List RowT) (key : Cell × Cell × Cell × Cell),
      subset = subsetFor melted key.1 key.2.1 key.2.2.1 →
      P (buildShape subset,
         [buildValues key.1 key.2.1 key.2.2.1 key.2.2.2 subset])) :
    ∀ (d : GroupDict) (key : Cell × Cell × Cell × Cell),
      (∀ q ∈ d, P q) → ∀ p ∈ processKey melted d key, P p := by
  rintro d ⟨camp, prio, lang, brand⟩ hd p hp
  rw [processKey] at hp
  by_cases hsub : subsetFor melted camp prio lang = []
  · rw [if_pos hsub] at hp
    exact hd p hp
  · rw [if_neg hsub] at hp
    rcases mem_dictAppend hp with h | ⟨q, hq, hqs, hpe⟩ | h
    · exact hd p h
    · rw [hpe]
      exact hold q _ _ (camp, prio, lang, brand) rfl rfl hqs (hd q hq)
    · rw [h]
      exact hnew _ (camp, prio, lang, brand) rfl

/-- C4: in every payload of a successful generate_json_logic run the field
list starts with the four fixed match fields, and every record value tuple
has exactly as many entries as the field list, positionally aligned by
construction. -/
theorem claim_C4 (df : DF) (existingMeta langCols : List String) (camp : Str)
    (out : List Payload)
    (hout : (generate_json_logic df existingMeta langCols camp).2.1 = some out) :
    ∀ p ∈ out, p.recordData.fieldNames.take 4 = baseFields ∧
      ∀ rec ∈ p.recordData.records, rec.length = p.recordData.fieldNames.length := by
  simp only [generate_json_logic] at hout
  by_cases herr : (jsonCleanDF df langCols).2 ≠ []
  · rw [if_pos herr] at hout
    cases hout
  · rw [if_neg herr] at hout
    have hout2 : out = (jsonGrouped df existingMeta langCols camp).map (fun p =>
        ({ recordData := { fieldNames := p.1, records := p.2 },
           mergeRule := theMergeRule } : Payload)) := (Option.some.inj hout).symm
    subst hout2
    intro p hp
    obtain ⟨q, hq, hpq⟩ := List.mem_map.mp hp
    have hinv : ∀ q2 ∈ jsonGrouped df existingMeta langCols camp,
        q2.1.take 4 = baseFields ∧ ∀ rec ∈ q2.2, rec.length = q2.1.length := by
      refine foldl_processKey_inv (processKey_inv_step ?_ ?_) _ _
        (fun q2 hq2 => absurd hq2 (List.not_mem_nil _)) 
      · rintro q2 rec subset key rfl rfl hshape ⟨ht, hlen⟩
        refine ⟨ht, ?_⟩
        intro r2 hr2
        rcases List.mem_append.mp hr2 with h | h
        · exact hlen r2 h
        · rw [List.mem_singleton.mp h, buildValues_length, hshape, buildShape_length]
      · rintro subset key rfl
        refine ⟨buildShape_take4 _, ?_⟩
        intro r2 hr2
        rw [List.mem_singleton.mp hr2, buildValues_length, buildShape_length]
    rw [← hpq]
    exact hinv q hq

/-- A one-payload success input for the JSON path. -/
def okRow : RowT :=
  [("Priority", some ['1']), ("Module_Type", some "Email".data),
   ("DB_Field_Name", some "Subject".data), ("EN", some "Hi".data)]

/-- The table around okRow. -/
def okDF : DF := ⟨["Priority", "Module_Type", "DB_Field_Name", "EN"], [okRow]⟩

/-- C4 witness: the invariant at a concrete successful run, instantiated at
its one payload and record. -/
theorem claim_C4_witness :
    (⟨⟨baseFields ++ [some "Subject".data],
        [["NF".data, ['1'], "EN".data, "ALL".data, "Hi".data]]⟩,
      theMergeRule⟩ : Payload).recordData.fieldNames.take 4 = baseFields ∧
    ["NF".data, ['1'], "EN".data, "ALL".data, "Hi".data].length =
      (⟨⟨baseFields ++ [some "Subject".data],
          [["NF".data, ['1'], "EN".data, "ALL".data, "Hi".data]]⟩,
        theMergeRule⟩ : Payload).recordData.fieldNames.length := by
  have h := claim_C4 okDF baseMeta ["EN"] "NF".data
    [(⟨⟨baseFields ++ [some "Subject".data],
        [["NF".data, ['1'], "EN".data, "ALL".data, "Hi".data]]⟩,
      theMergeRule⟩ : Payload)] (by decide)
    (⟨⟨baseFields ++ [some "Subject".data],
        [["NF".data, ['1'], "EN".data, "ALL".data, "Hi".data]]⟩,
      theMergeRule⟩ : Payload) (by decide)
  exact ⟨h.1, h.2 _ (by decide)⟩


theorem mem_addLongDefault_content {l : List RowT} {cols : List String}
    {name : String} {v : Str} (hname : name ≠ "Content") :
    ∀ r ∈ addLongDefault l cols name v,
      ∃ r0 ∈ l, getCell r "Content" = getCell r0 "Content" := by
  intro r hr
  rw [addLongDefault] at hr
  by_cases hmem : name ∈ cols
  · rw [if_pos hmem] at hr
    exact ⟨r, hr, rfl⟩
  · rw [if_neg hmem] at hr
    obtain ⟨r0, hr0, rfl⟩ := List.mem_map.mp hr
    exact ⟨r0, hr0, getCell_append_ne hname _⟩

/-- Every row of the long data a JSON run groups has present, non-empty
content: pruning ran before the default columns were appended, and appending
them does not touch the Content entry. -/
theorem jsonLongData_content {df : DF} {existingMeta langCols : List String}
    {camp : Str} : ∀ r ∈ jsonLongData df existingMeta langCols camp,
      ∃ s, getCell r "Content" = some s ∧ s ≠ [] := by
  intro r hr
  rw [jsonLongData] at hr
  obtain ⟨r1, hr1, he1⟩ := mem_addLongDefault_content (by decide) r hr
  obtain ⟨r0, hr0, he0⟩ := mem_addLongDefault_content (by decide) r1 hr1
  obtain ⟨-, s, hs, hne⟩ := mem_prune.mp hr0
  exact ⟨s, by rw [he1, he0, hs], hne⟩

/-- The table whose EN cell is a single space: it survives pruning, is
cleaned to the empty string, and that empty string reaches the pivot. -/
def wsRow : RowT :=
  [("Priority", some ['1']), ("Module_Type", some "Email".data),
   ("DB_Field_Name", some "Subject".data), ("EN", some [' '])]

/-- The table around wsRow. -/
def wsDF : DF := ⟨["Priority", "Module_Type", "DB_Field_Name", "EN"], [wsRow]⟩

/-- C7 counterexample: on a whitespace-only cell the CSV run succeeds and its
pivoted output holds the empty string in the Subject column — an empty value
does reach the pivoted CSV, because the cell is pruned before cleaning turns
it empty. -/
theorem claim_C7_counterexample :
    ((generate_csv_logic wsDF baseMeta ["EN"]
        "NF_Campaign_Name".data false).2.1.getD ⟨[], []⟩).rows.any
      (fun r => decide (getCell r "Subject" = some [])) = true ∧
    (generate_csv_logic wsDF baseMeta ["EN"]
        "NF_Campaign_Name".data false).2.2 = none := by
  decide

/-- C7 (amended): pruning drops exactly the melted records whose content is
absent or empty, in both paths (first conjunct, the shared prune stage); in
the JSON path the cleaning runs before the melt, so no empty value reaches a
payload: every record entry past the four fixed key values is non-empty.  In
the CSV path a whitespace-only cell survives pruning and is cleaned to the
empty string afterwards, so the pivoted CSV can carry an empty value (see the
counterexample). -/
theorem claim_C7 :
    (∀ (l : List RowT) (r : RowT), r ∈ prune l ↔
      (r ∈ l ∧ ∃ s, getCell r "Content" = some s ∧ s ≠ [])) ∧
    (∀ (df : DF) (existingMeta langCols : List String) (camp : Str)
      (out : List Payload),
      (generate_json_logic df existingMeta langCols camp).2.1 = some out →
      ∀ p ∈ out, ∀ rec ∈ p.recordData.records, ∀ s ∈ rec.drop 4, s ≠ []) := by
  constructor
  · intro l r
    exact mem_prune
  · intro df existingMeta langCols camp out hout
    simp only [generate_json_logic] at hout
    by_cases herr : (jsonCleanDF df langCols).2 ≠ []
    · rw [if_pos herr] at hout
      cases hout
    · rw [if_neg herr] at hout
      have hout2 : out = (jsonGrouped df existingMeta langCols camp).map (fun p =>
          ({ recordData := { fieldNames := p.1, records := p.2 },
             mergeRule := theMergeRule } : Payload)) := (Option.some.inj hout).symm
      subst hout2
      intro p hp
      obtain ⟨q, hq, hpq⟩ := List.mem_map.mp hp
      have hinv : ∀ q2 ∈ jsonGrouped df existingMeta langCols camp,
          ∀ rec ∈ q2.2, ∀ s ∈ rec.drop 4, s ≠ [] := by
        have hrec : ∀ (subset : List RowT) (key : Cell × Cell × Cell × Cell),
            subset = subsetFor (jsonLongData df existingMeta langCols camp)
              key.1 key.2.1 key.2.2.1 →
            ∀ s ∈ (buildValues key.1 key.2.1 key.2.2.1 key.2.2.2 subset).drop 4,
              s ≠ [] := by
          rintro subset key rfl s hs
          rw [buildValues_drop4] at hs
          obtain ⟨r2, hr2, rfl⟩ := List.mem_map.mp hs
          have hr3 : r2 ∈ jsonLongData df existingMeta langCols camp :=
            (List.mem_filter.mp hr2).1
          obtain ⟨s2, hs2, hne2⟩ := jsonLongData_content r2 hr3
          rw [hs2]
          exact hne2
        refine foldl_processKey_inv (processKey_inv_step ?_ ?_) _ _
          (fun q2 hq2 => absurd hq2 (List.not_mem_nil _))
        · rintro q2 rec subset key hsub hrecv hshape hP r2 hr2 s hs
          rcases List.mem_append.mp hr2 with h | h
          · exact hP r2 h s hs
          · rw [List.mem_singleton.mp h, hrecv] at hs
            exact hrec subset key hsub s hs
        · rintro subset key rfl r2 hr2 s hs
          rw [List.mem_singleton.mp hr2] at hs
          exact hrec _ key rfl s hs
      rw [← hpq]
      exact hinv q hq

/-- C7 witness: the prune characterization at a concrete long row, and the
non-empty payload values of a concrete successful JSON run. -/
theorem claim_C7_witness :
    (mkLong baseMeta "EN" okRow ∈ prune [mkLong baseMeta "EN" okRow] ↔
      (mkLong baseMeta "EN" okRow ∈ [mkLong baseMeta "EN" okRow] ∧
        ∃ s, getCell (mkLong baseMeta "EN" okRow) "Content" = some s ∧ s ≠ [])) ∧
    (∀ p ∈ [(⟨⟨baseFields ++ [some "Subject".data],
        [["NF".data, ['1'], "EN".data, "ALL".data, "Hi".data]]⟩,
        theMergeRule⟩ : Payload)],
      ∀ rec ∈ p.recordData.records, ∀ s ∈ rec.drop 4, s ≠ []) :=
  ⟨claim_C7.1 _ _, claim_C7.2 okDF baseMeta ["EN"] "NF".data _ (by decide)⟩


/-! ## Claim C2: the melt/pivot round trip -/

theorem find_eq_some_of_unique {α : Type} {p : α → Bool} {l : List α} {x : α}
    (hx : x ∈ l) (hpx : p x = true) (hu : ∀ y ∈ l, p y = true → y = x) :
    l.find? p = some x := by
  induction l with
  | nil => cases hx
  | cons a l1 ih =>
    by_cases hpa : p a = true
    · rw [List.find?_cons_of_pos _ hpa, hu a (List.mem_cons_self _ _) hpa]
    · rw [List.find?_cons_of_neg _ hpa]
      rcases List.mem_cons.mp hx with rfl | hx2
      · exact absurd hpx hpa
      · exact ih hx2 (fun y hy hpy => hu y (List.mem_cons_of_mem _ hy) hpy)

theorem mem_dedupFirst {α : Type} [DecidableEq α] {l : List α} {a : α} :
    a ∈ dedupFirst l ↔ a ∈ l := by
  induction l with
  | nil => rfl
  | cons b l1 ih =>
    rw [dedupFirst]
    constructor
    · intro h
      rcases List.mem_cons.mp h with rfl | h2
      · exact List.mem_cons_self _ _
      · exact List.mem_cons_of_mem _ (ih.mp (List.mem_filter.mp h2).1)
    · intro h
      rcases List.mem_cons.mp h with rfl | h2
      · exact List.mem_cons_self _ _
      · by_cases hab : a = b
        · rw [hab]; exact List.mem_cons_self _ _
        · exact List.mem_cons_of_mem _
            (List.mem_filter.mpr ⟨ih.mpr h2, decide_eq_true hab⟩)

theorem zip_map_self {α β : Type} (ks : List α) (h : α → β) :
    ks.zip (ks.map h) = ks.map (fun k => (k, h k)) := by
  induction ks with
  | nil => rfl
  | cons k ks1 ih => rw [List.map_cons, List.zip_cons_cons, ih, List.map_cons]

theorem findCol_map_mk {l : List Str} {val : Str → Cell} {f : Str} (hf : f ∈ l) :
    findCol (String.mk f) (l.map (fun x => (String.mk x, val x))) = some (val f) := by
  induction l with
  | nil => cases hf
  | cons x l1 ih =>
    rw [List.map_cons, findCol_cons]
    by_cases hx : x = f
    · subst hx
      rw [if_pos rfl]
    · have hne : ¬ (String.mk x, val x).1 = String.mk f := by
        intro hc
        exact hx (by injection hc)
      rw [if_neg hne]
      rcases List.mem_cons.mp hf with rfl | hf2
      · exact absurd rfl hx
      · exact ih hf2

theorem findCol_map_mk_none {l : List String} {g : List Cell} {k : String}
    (hk : k ∉ l) : findCol k (l.zip g) = none := by
  induction l generalizing g with
  | nil => rfl
  | cons x l1 ih =>
    cases g with
    | nil => rfl
    | cons c g1 =>
      have hne : ¬ ((x, c).1 = k) := by
        intro hc
        have hx : x = k := hc
        exact hk (by rw [← hx]; exact List.mem_cons_self _ _)
      rw [List.zip_cons_cons, findCol_cons, if_neg hne]
      exact ih (fun h2 => hk (List.mem_cons_of_mem _ h2))

/-- C2: melting, pruning and pivoting back reproduce the original wide
content.  Under the loader's guarantees (the pivot-index columns other than
SITE_LANGUAGE are metadata columns, none clashing with the melt's two fresh
columns), with no cell dropped by pruning (every language cell a non-empty
string), no absent grouping key, no field name clashing with a key column,
and no two rows sharing a (group-key, field) pair, the pivoted table has a
row for each (source row, language column) whose key columns carry the
original language, priority, module and optional key values, and whose field
column carries the original cell value. -/
theorem claim_C2 (df : DF) (existingMeta langCols : List String)
    (r : RowT) (v : String) (f : Str)
    (hr : r ∈ df.rows) (hv : v ∈ langCols)
    (hf : getCell r "DB_Field_Name" = some f)
    (hsl : "SITE_LANGUAGE" ∉ existingMeta)
    (hct : "Content" ∉ existingMeta)
    (hmeta : ∀ k ∈ pivotIndex df.cols, k ≠ "SITE_LANGUAGE" → k ∈ existingMeta)
    (hdbf : "DB_Field_Name" ∈ existingMeta)
    (hcontent : ∀ r2 ∈ df.rows, ∀ v2 ∈ langCols,
      ∃ s, getCell r2 v2 = some s ∧ s ≠ [])
    (hkeys : ∀ r2 ∈ df.rows, ∀ k ∈ pivotIndex df.cols, k ≠ "SITE_LANGUAGE" →
      (getCell r2 k).isSome = true)
    (hfield : ∀ r2 ∈ df.rows, (getCell r2 "DB_Field_Name").isSome = true)
    (hnc : String.mk f ∉ pivotIndex df.cols)
    (hinj : ∀ r1 ∈ df.rows, ∀ r2 ∈ df.rows,
      ((pivotIndex df.cols).map
          (fun k => if k = "SITE_LANGUAGE" then none else getCell r1 k) =
        (pivotIndex df.cols).map
          (fun k => if k = "SITE_LANGUAGE" then none else getCell r2 k)) →
      getCell r1 "DB_Field_Name" = getCell r2 "DB_Field_Name" → r1 = r2) :
    ∃ prow ∈ (pivotTable (prune (melt df existingMeta langCols))
        (pivotIndex df.cols)).rows,
      (∀ k ∈ pivotIndex df.cols,
        getCell prow k = if k = "SITE_LANGUAGE" then some v.data else getCell r k) ∧
      getCell prow (String.mk f) = getCell r v := by
  have hmelt : ∀ lr ∈ melt df existingMeta langCols, ∃ v2 ∈ langCols,
      ∃ r2 ∈ df.rows, lr = mkLong existingMeta v2 r2 := by
    intro lr hlr
    obtain ⟨v2, hv2, r2, hr2, rfl⟩ := mem_melt.mp hlr
    exact ⟨v2, hv2, r2, hr2, rfl⟩
  have hprune : prune (melt df existingMeta langCols) = melt df existingMeta langCols := by
    apply prune_eq_self
    intro lr hlr
    obtain ⟨v2, hv2, r2, hr2, rfl⟩ := hmelt lr hlr
    obtain ⟨s, hs, hne⟩ := hcontent r2 hr2 v2 hv2
    exact ⟨s, by rw [getCell_mkLong_content hct, hs], hne⟩
  have hfilter : (melt df existingMeta langCols).filter (fun lr =>
      (rowKey (pivotIndex df.cols) lr).all Option.isSome &&
        (getCell lr "DB_Field_Name").isSome) = melt df existingMeta langCols := by
    rw [List.filter_eq_self]
    intro lr hlr
    obtain ⟨v2, hv2, r2, hr2, rfl⟩ := hmelt lr hlr
    rw [Bool.and_eq_true]
    constructor
    · rw [List.all_eq_true]
      intro c hc
      obtain ⟨gk, hgk⟩ := List.mem_map.mp hc
      rw [← hgk.2]
      by_cases hksl : gk = "SITE_LANGUAGE"
      · rw [hksl, getCell_mkLong_lang hsl]; rfl
      · rw [getCell_mkLong_meta (hmeta gk hgk.1 hksl)]
        exact hkeys r2 hr2 gk hgk.1 hksl
    · rw [getCell_mkLong_meta hdbf]
      exact hfield r2 hr2
  have hlr0 : mkLong existingMeta v r ∈ melt df existingMeta langCols :=
    mem_melt.mpr ⟨v, hv, r, hr, rfl⟩
  refine ⟨(pivotIndex df.cols).zip
      (rowKey (pivotIndex df.cols) (mkLong existingMeta v r)) ++
    (dedupFirst ((melt df existingMeta langCols).filterMap
        (fun lr => getCell lr "DB_Field_Name"))).map (fun f2 =>
      (String.mk f2,
        match (melt df existingMeta langCols).find? (fun lr =>
          decide (rowKey (pivotIndex df.cols) lr =
            rowKey (pivotIndex df.cols) (mkLong existingMeta v r)) &&
          decide (getCell lr "DB_Field_Name" = some f2)) with
        | some lr => getCell lr "Content"
        | none => none)), ?_, ?_, ?_⟩
  · simp only [pivotTable, hprune, hfilter]
    exact List.mem_map.mpr
      ⟨rowKey (pivotIndex df.cols) (mkLong existingMeta v r),
       mem_dedupFirst.mpr (List.mem_map.mpr ⟨mkLong existingMeta v r, hlr0, rfl⟩),
       rfl⟩
  · intro k hk
    have hkin : findCol k ((pivotIndex df.cols).zip
        (rowKey (pivotIndex df.cols) (mkLong existingMeta v r))) =
        some (getCell (mkLong existingMeta v r) k) := by
      rw [rowKey, zip_map_self]
      exact findCol_mapPairs hk
    rw [getCell, findCol_append_of_some hkin]
    show getCell (mkLong existingMeta v r) k = _
    by_cases hksl : k = "SITE_LANGUAGE"
    · rw [if_pos hksl, hksl, getCell_mkLong_lang hsl]
    · rw [if_neg hksl, getCell_mkLong_meta (hmeta k hk hksl)]
  · have hzipnone : findCol (String.mk f) ((pivotIndex df.cols).zip
        (rowKey (pivotIndex df.cols) (mkLong existingMeta v r))) = none :=
      findCol_map_mk_none hnc
    rw [getCell, findCol_append_of_none hzipnone]
    have hfmem : f ∈ dedupFirst ((melt df existingMeta langCols).filterMap
        (fun lr => getCell lr "DB_Field_Name")) := by
      refine mem_dedupFirst.mpr
        (List.mem_filterMap.mpr ⟨mkLong existingMeta v r, hlr0, ?_⟩)
      rw [getCell_mkLong_meta hdbf, hf]
    rw [findCol_map_mk hfmem]
    have hfind : (melt df existingMeta langCols).find? (fun lr =>
        decide (rowKey (pivotIndex df.cols) lr =
          rowKey (pivotIndex df.cols) (mkLong existingMeta v r)) &&
        decide (getCell lr "DB_Field_Name" = some f)) =
        some (mkLong existingMeta v r) := by
      apply find_eq_some_of_unique hlr0
      · rw [Bool.and_eq_true]
        exact ⟨decide_eq_true rfl,
          decide_eq_true (by rw [getCell_mkLong_meta hdbf, hf])⟩
      · intro y hy hpy
        rw [Bool.and_eq_true] at hpy
        have hkey : rowKey (pivotIndex df.cols) y =
            rowKey (pivotIndex df.cols) (mkLong existingMeta v r) :=
          of_decide_eq_true hpy.1
        have hfld : getCell y "DB_Field_Name" = some f := of_decide_eq_true hpy.2
        obtain ⟨v2, hv2, r2, hr2, rfl⟩ := hmelt y hy
        have hpoint : ∀ k ∈ pivotIndex df.cols,
            getCell (mkLong existingMeta v2 r2) k =
            getCell (mkLong existingMeta v r) k :=
          List.map_inj_left.mp hkey
        have hveq : v2 = v := by
          have h1 := hpoint "SITE_LANGUAGE" (List.mem_cons_self _ _)
          rw [getCell_mkLong_lang hsl, getCell_mkLong_lang hsl] at h1
          have h2 : v2.data = v.data := by injection h1
          have h3 : String.mk v2.data = String.mk v.data := by rw [h2]
          exact h3
        have hreq : r2 = r := by
          refine hinj r2 hr2 r hr ?_ ?_
          · refine List.map_inj_left.mpr ?_
            intro k hk
            by_cases hksl : k = "SITE_LANGUAGE"
            · rw [if_pos hksl, if_pos hksl]
            · rw [if_neg hksl, if_neg hksl]
              have h4 := hpoint k hk
              rw [getCell_mkLong_meta (hmeta k hk hksl),
                getCell_mkLong_meta (hmeta k hk hksl)] at h4
              exact h4
          · have h5 := hfld
            rw [getCell_mkLong_meta hdbf] at h5
            rw [h5, hf]
        rw [hveq, hreq]
    rw [hfind]
    show Option.join (some (getCell (mkLong existingMeta v r) "Content")) = _
    rw [getCell_mkLong_content hct]
    rfl


/-- First row of the round-trip example table. -/
def c2Row1 : RowT :=
  [("Priority", some ['1']), ("Module_Type", some "Email".data),
   ("DB_Field_Name", some "Subject".data), ("EN", some "Hello".data),
   ("SV", some "Hej".data)]

/-- Second row of the round-trip example table: same group key, another
field. -/
def c2Row2 : RowT :=
  [("Priority", some ['1']), ("Module_Type", some "Email".data),
   ("DB_Field_Name", some "Body".data), ("EN", some "World".data),
   ("SV", some "Varld".data)]

/-- The round-trip example table. -/
def c2DF : DF :=
  ⟨["Priority", "Module_Type", "DB_Field_Name", "EN", "SV"], [c2Row1, c2Row2]⟩

/-- C2 witness: the round trip at a concrete two-row, two-language table. -/
theorem claim_C2_witness :
    ∃ prow ∈ (pivotTable (prune (melt c2DF baseMeta ["EN", "SV"]))
        (pivotIndex c2DF.cols)).rows,
      (∀ k ∈ pivotIndex c2DF.cols,
        getCell prow k = if k = "SITE_LANGUAGE" then some "SV".data
          else getCell c2Row1 k) ∧
      getCell prow (String.mk "Subject".data) = getCell c2Row1 "SV" :=
  claim_C2 c2DF baseMeta ["EN", "SV"] c2Row1 "SV" "Subject".data
    (by decide) (by decide) (by decide) (by decide) (by decide) (by decide)
    (by decide) (by decide) (by decide) (by decide) (by decide) (by decide)

end Responsys
